import Mathlib

/-!
Verification of `examples/cpp_sample` (namespace `MathUtils`).

Shallow embedding of `calculator.h`, `calculator.cpp` and `main.cpp`.

* `MathUtils.Double` models the C++ type `double` as IEEE 754 binary64 with
  round-to-nearest-even arithmetic, evaluated in double precision. All NaNs are
  identified, so equality of two doubles here is equality of their bits up to the
  payload of a NaN; `+0.0` and `-0.0` are different values that compare equal.
* `MathUtils.formatNumber` embeds the free function of that name; the stream
  insertion it relies on is `MathUtils.formatFixed`. The precision is a C++ `int`; a
  text of more than `INT_MAX` characters is not produced and the result is empty. The
  stack that the conversion takes, of about twice the length of the text, is not
  modelled: statements about the text are made for precisions up to `1000000`.
* `MathUtils.Calculator` embeds the class: a member function becomes a function
  from the object before the call (and the arguments) to the outcome of the call,
  a returned value or a thrown exception, together with the object after the
  call, so that the effect of a call that throws is visible as well.
* The function `std::pow` is a parameter of `Calculator.power`; `MathUtils.Double.pow`
  is the model of it that the one statement about a value of `power` uses. Exhaustion
  of memory (`std::bad_alloc` from a string or vector) is not modelled.
* `MathUtils.main` embeds the driver without its console output.
* Reachable states are those of `MathUtils.Calculator.run`: a newly constructed
  calculator after any list of public calls, a call that throws being followed by the
  next call.
-/

namespace MathUtils

/-! ## The type `double` -/

/-- An IEEE 754 binary64 value. A finite value carries its sign bit, its biased
exponent field (`0 .. 2046`) and its 52 bit fraction field; the exponent field
`0` holds zero and the subnormal numbers. -/
inductive Double where
  | nan : Double
  | inf (neg : Bool) : Double
  | fin (neg : Bool) (expo : Fin 2047) (frac : Fin 4503599627370496) : Double
  deriving DecidableEq, Repr

namespace Double

/-- Least `k` at or above the given one with `n < 2 ^ (2 ^ k)`. -/
def levels : Nat → Nat → Nat → Nat
  | 0, k, _ => k
  | fuel + 1, k, n => if n >>> (2 ^ k) = 0 then k else levels fuel (k + 1) n

/-- Number of binary digits of `n < 2 ^ (2 ^ k)`, by binary search. -/
def bitLenAux : Nat → Nat → Nat
  | 0, n => if n = 0 then 0 else 1
  | k + 1, n =>
    if n >>> (2 ^ k) = 0 then bitLenAux k n else bitLenAux k (n >>> (2 ^ k)) + 2 ^ k

/-- Number of binary digits of `n` (`0` for `0`). -/
def bitLen (n : Nat) : Nat := bitLenAux (levels n 0 n) n

/-- Newton iteration for the integer square root, from an upper estimate `x`. -/
def sqrtIter : Nat → Nat → Nat → Nat
  | 0, _, x => x
  | fuel + 1, n, x =>
    let y := (x + n / x) / 2
    if y < x then sqrtIter fuel n y else x

/-- Floor of the square root of `n`. -/
def natSqrt (n : Nat) : Nat :=
  if n = 0 then 0 else sqrtIter (bitLen n + 2) n (1 <<< ((bitLen n + 1) / 2))

/-- Significand of a finite value: the fraction field, with the hidden bit for a
normal number. -/
def mant (expo : Fin 2047) (frac : Fin 4503599627370496) : Nat :=
  if expo.val = 0 then frac.val else 4503599627370496 + frac.val

/-- Magnitude of a finite value in units of `2 ^ (-1074)`, the least subnormal. -/
def mag (expo : Fin 2047) (frac : Fin 4503599627370496) : Nat :=
  mant expo frac <<< (expo.val - 1)

/-- Signed value of a finite double in units of `2 ^ (-1074)`. -/
def sval (neg : Bool) (expo : Fin 2047) (frac : Fin 4503599627370496) : Int :=
  if neg then -(mag expo frac : Int) else (mag expo frac : Int)

/-- Nearest integer to `n / d`, ties to the even one. -/
def roundHalfEven (n d : Nat) : Nat :=
  let m := n / d
  let r := n % d
  if 2 * r < d then m
  else if 2 * r = d then (if m % 2 = 0 then m else m + 1)
  else m + 1

/-- The double with significand `m ≤ 2 ^ 53` and unit in the last place
`2 ^ (qb - 1074)`; a value beyond the largest finite double becomes infinite. -/
def pack (neg : Bool) (m qb : Nat) : Double :=
  if h : m < 4503599627370496 then .fin neg 0 ⟨m, h⟩
  else
    let be := if m < 9007199254740992 then qb + 1 else qb + 2
    let fr := if m < 9007199254740992 then m - 4503599627370496 else 0
    if hb : be < 2047 then
      if hf : fr < 4503599627370496 then .fin neg ⟨be, hb⟩ ⟨fr, hf⟩ else .inf neg
    else .inf neg

/-- Correct rounding (to nearest, ties to even) of the rational `num / den`,
`den > 0`, with the sign `neg`. -/
def roundRat (neg : Bool) (num den : Nat) : Double :=
  if num = 0 then .fin neg 0 0
  else
    let bn := bitLen num
    let bd := bitLen den
    -- `qb - 1074` is the exponent of the unit in the last place of the result
    let c := if den <<< bn ≤ num <<< bd then 0 else 1
    let qb := (bn + 1022 - c) - bd
    pack neg (roundHalfEven (num <<< 1074) (den <<< qb)) qb

/-- Unary minus: flips the sign bit. -/
def neg : Double → Double
  | .nan => .nan
  | .inf n => .inf (!n)
  | .fin n e f => .fin (!n) e f

/-- The function `std::abs(double)`: clears the sign bit. -/
def abs : Double → Double
  | .nan => .nan
  | .inf _ => .inf false
  | .fin _ e f => .fin false e f

/-- Addition `a + b`. -/
def add : Double → Double → Double
  | .nan, _ => .nan
  | _, .nan => .nan
  | .inf n, .inf m => if n = m then .inf n else .nan
  | .inf n, .fin _ _ _ => .inf n
  | .fin _ _ _, .inf m => .inf m
  | .fin na ea fa, .fin nb eb fb =>
    let s := sval na ea fa + sval nb eb fb
    if s = 0 then .fin (na && nb) 0 0
    else roundRat (decide (s < 0)) s.natAbs (1 <<< 1074)

/-- Subtraction `a - b`. -/
def sub (a b : Double) : Double := add a (neg b)

/-- Multiplication `a * b`. -/
def mul : Double → Double → Double
  | .nan, _ => .nan
  | _, .nan => .nan
  | .inf n, .inf m => .inf (n != m)
  | .inf n, .fin m e f => if mag e f = 0 then .nan else .inf (n != m)
  | .fin n e f, .inf m => if mag e f = 0 then .nan else .inf (n != m)
  | .fin na ea fa, .fin nb eb fb =>
    roundRat (na != nb) (mag ea fa * mag eb fb) (1 <<< 2148)

/-- Division `a / b`. -/
def div : Double → Double → Double
  | .nan, _ => .nan
  | _, .nan => .nan
  | .inf _, .inf _ => .nan
  | .inf n, .fin m _ _ => .inf (n != m)
  | .fin n _ _, .inf m => .fin (n != m) 0 0
  | .fin na ea fa, .fin nb eb fb =>
    if mag eb fb = 0 then (if mag ea fa = 0 then .nan else .inf (na != nb))
    else roundRat (na != nb) (mag ea fa) (mag eb fb)

/-- The function `std::sqrt(double)`, correctly rounded. -/
def sqrt : Double → Double
  | .nan => .nan
  | .inf n => if n then .nan else .inf false
  | .fin n e f =>
    if mag e f = 0 then .fin n e f
    else if n then .nan
    else
      let x := mag e f <<< 1074
      let s := natSqrt x
      roundRat false (2 * s + (if s * s = x then 0 else 1)) (1 <<< 1075)

/-- The comparison `a < b`; false when an operand is a NaN. -/
def lt : Double → Double → Bool
  | .nan, _ => false
  | _, .nan => false
  | .inf n, .inf m => n && !m
  | .inf n, .fin _ _ _ => n
  | .fin _ _ _, .inf m => !m
  | .fin na ea fa, .fin nb eb fb => decide (sval na ea fa < sval nb eb fb)

/-- The comparison `a <= b`; false when an operand is a NaN. -/
def le : Double → Double → Bool
  | .nan, _ => false
  | _, .nan => false
  | .inf n, .inf m => n || !m
  | .inf n, .fin _ _ _ => n
  | .fin _ _ _, .inf m => !m
  | .fin na ea fa, .fin nb eb fb => decide (sval na ea fa ≤ sval nb eb fb)

instance : Neg Double := ⟨neg⟩
instance : Add Double := ⟨add⟩
instance : Sub Double := ⟨sub⟩
instance : Mul Double := ⟨mul⟩
instance : Div Double := ⟨div⟩
instance : LT Double := ⟨fun a b => lt a b = true⟩
instance : LE Double := ⟨fun a b => le a b = true⟩
instance (a b : Double) : Decidable (a < b) := inferInstanceAs (Decidable (lt a b = true))
instance (a b : Double) : Decidable (a ≤ b) := inferInstanceAs (Decidable (le a b = true))

/-- A decimal floating literal of the source (`10.5`, `1e-10`), correctly rounded. -/
instance : OfScientific Double where
  ofScientific m s e := if s then roundRat false m (10 ^ e) else roundRat false (m * 10 ^ e) 1

/-- An integer literal of the source converted to `double` (`0` in `number < 0`). -/
instance (n : Nat) : OfNat Double n := ⟨roundRat false n 1⟩

end Double

/-! ## `formatNumber` -/

/-- The `p` low decimal digits of `n`, most significant first. -/
def fracDigits : Nat → Nat → List Char
  | 0, _ => []
  | p + 1, n => fracDigits p (n / 10) ++ [Nat.digitChar (n % 10)]

/-- The text that `oss << std::fixed << std::setprecision(p) << number` inserts in the
classic locale (the conversion `%.*f`): the exact value of `number` rounded to `p`
decimals, ties to even. All NaNs being identified, a NaN is written `nan`; the
program writes a NaN whose sign bit is set `-nan`, and IEEE 754 leaves the sign of the
NaN that an operation produces open (on x86-64 `inf + -inf` has the sign bit set). No
statement of this file is about the text of a NaN. -/
def formatFixed (number : Double) (p : Nat) : String :=
  match number with
  | .nan => "nan"
  | .inf neg => (if neg then "-" else "") ++ "inf"
  | .fin neg e f =>
    let n := Double.roundHalfEven (Double.mag e f * 10 ^ p) (1 <<< 1074)
    (if neg then "-" else "") ++ String.mk (Nat.toDigits 10 (n / 10 ^ p)) ++
      (if p = 0 then "" else "." ++ String.mk (fracDigits p n))

/-- The largest value of the C++ type `int`, `INT_MAX`. -/
def INT_MAX : Nat := 2147483647

/-- The text of the conversion of a finite `number` with `p` decimals would have more
than `INT_MAX` characters. A finite number is written with at least `p + 2` characters,
which settles the largest precisions before any digit is computed. -/
def fixedTooLong (number : Double) (p : Nat) : Bool :=
  match number with
  | .fin _ _ _ =>
    decide (INT_MAX < p + 2) || decide (INT_MAX < (formatFixed number p).length)
  | _ => false

/-- The function `std::string formatNumber(double number, int precision = 2)` of
`calculator.cpp`: the content of a fresh `std::ostringstream` after
`oss << std::fixed << std::setprecision(precision) << number`. The argument `precision`
is a C++ `int`, at most `INT_MAX`. A negative stream precision is converted as the
default precision `6`. A text of more than `INT_MAX` characters cannot be converted
(the conversion `%.*f` reports an error) and nothing is inserted: the result is the
empty string. The stream library converts in buffers of the length of the text that it
takes from the stack of the caller; a call with a precision in the millions can exhaust
the stack and does not return then, and the model does not describe such a call. -/
def formatNumber (number : Double) (precision : Int := 2) : String :=
  let p := if precision < 0 then 6 else precision.toNat
  if fixedTooLong number p then "" else formatFixed number p

/-! ## The class `Calculator` -/

/-- The exceptions of `<stdexcept>` thrown by the class, with their `what()` text. -/
inductive Exception where
  | invalid_argument (what : String) : Exception
  deriving DecidableEq, Repr

deriving instance DecidableEq for Except

/-- The data members of `class Calculator`. -/
structure Calculator where
  /-- Member `std::vector<std::string> history`. -/
  history : List String
  /-- Member `double lastResult`. -/
  lastResult : Double
  deriving DecidableEq, Repr

/-- Member function `double Calculator::add(double a, double b)`. -/
def Calculator.add (self : Calculator) (a b : Double) : Except Exception Double × Calculator :=
  let self := { self with lastResult := a + b }
  let oss := formatNumber a ++ " + " ++ formatNumber b ++ " = " ++ formatNumber self.lastResult
  let self := { self with history := self.history ++ [oss] }
  (.ok self.lastResult, self)

/-- Member function `double Calculator::subtract(double a, double b)`. -/
def Calculator.subtract (self : Calculator) (a b : Double) :
    Except Exception Double × Calculator :=
  let self := { self with lastResult := a - b }
  let oss := formatNumber a ++ " - " ++ formatNumber b ++ " = " ++ formatNumber self.lastResult
  let self := { self with history := self.history ++ [oss] }
  (.ok self.lastResult, self)

/-- Member function `double Calculator::multiply(double a, double b)`. -/
def Calculator.multiply (self : Calculator) (a b : Double) :
    Except Exception Double × Calculator :=
  let self := { self with lastResult := a * b }
  let oss := formatNumber a ++ " * " ++ formatNumber b ++ " = " ++ formatNumber self.lastResult
  let self := { self with history := self.history ++ [oss] }
  (.ok self.lastResult, self)

/-- Member function `double Calculator::divide(double a, double b)`. -/
def Calculator.divide (self : Calculator) (a b : Double) :
    Except Exception Double × Calculator :=
  if Double.abs b < 1e-10 then
    (.error (.invalid_argument "Division by zero is not allowed"), self)
  else
    let self := { self with lastResult := a / b }
    let oss := formatNumber a ++ " / " ++ formatNumber b ++ " = " ++ formatNumber self.lastResult
    let self := { self with history := self.history ++ [oss] }
    (.ok self.lastResult, self)

/-- Member function `double Calculator::getLastResult() const`. -/
def Calculator.getLastResult (self : Calculator) : Except Exception Double × Calculator :=
  (.ok self.lastResult, self)

/-- Member function `const std::vector<std::string>& Calculator::getHistory() const`. -/
def Calculator.getHistory (self : Calculator) : Except Exception (List String) × Calculator :=
  (.ok self.history, self)

/-- Member function `void Calculator::clearHistory()`. -/
def Calculator.clearHistory (self : Calculator) : Except Exception Unit × Calculator :=
  let self := { self with history := [] }
  let self := { self with lastResult := 0.0 }
  let self := { self with history := self.history ++ ["History cleared"] }
  (.ok (), self)

/-- Member function `double Calculator::power(double base, double exponent)`. The
function `std::pow` belongs to the math library, whose
results IEEE 754 does not fix; it is the parameter `std_pow`. -/
def Calculator.power (std_pow : Double → Double → Double) (self : Calculator)
    (base exponent : Double) : Except Exception Double × Calculator :=
  let self := { self with lastResult := std_pow base exponent }
  let oss := formatNumber base ++ " ^ " ++ formatNumber exponent ++ " = " ++
    formatNumber self.lastResult
  let self := { self with history := self.history ++ [oss] }
  (.ok self.lastResult, self)

/-- Member function `double Calculator::sqrt(double number)`. -/
def Calculator.sqrt (self : Calculator) (number : Double) :
    Except Exception Double × Calculator :=
  if number < 0 then
    (.error (.invalid_argument "Square root of negative number is not allowed"), self)
  else
    let self := { self with lastResult := Double.sqrt number }
    let oss := "sqrt(" ++ formatNumber number ++ ") = " ++ formatNumber self.lastResult
    let self := { self with history := self.history ++ [oss] }
    (.ok self.lastResult, self)

set_option linter.dupNamespace false in
/-- Constructor `Calculator::Calculator()`: the member initialiser `lastResult(0.0)`, `history`
default-constructed, then the body. -/
def Calculator.Calculator : Calculator :=
  let self : MathUtils.Calculator := { history := [], lastResult := 0.0 }
  { self with history := self.history ++ ["Calculator initialized"] }

/-! ## Sequences of calls -/

/-- A value returned by a public member function of `Calculator`. -/
inductive Value where
  | number (d : Double) : Value
  | strings (l : List String) : Value
  | void : Value
  deriving DecidableEq, Repr

/-- A call of a public member function of `Calculator`, with its arguments. -/
inductive Call where
  | add (a b : Double) : Call
  | subtract (a b : Double) : Call
  | multiply (a b : Double) : Call
  | divide (a b : Double) : Call
  | getLastResult : Call
  | getHistory : Call
  | clearHistory : Call
  | power (base exponent : Double) : Call
  | sqrt (number : Double) : Call
  deriving DecidableEq, Repr

/-- The six arithmetic operations among the public member functions. -/
def Call.isArithmetic : Call → Bool
  | .add _ _ => true
  | .subtract _ _ => true
  | .multiply _ _ => true
  | .divide _ _ => true
  | .power _ _ => true
  | .sqrt _ => true
  | .getLastResult => false
  | .getHistory => false
  | .clearHistory => false

/-- The outcome of one public call on the object `self`, and the object after it. -/
def Calculator.call (std_pow : Double → Double → Double) (self : MathUtils.Calculator) :
    Call → Except Exception Value × MathUtils.Calculator
  | .add a b => ((self.add a b).1.map Value.number, (self.add a b).2)
  | .subtract a b => ((self.subtract a b).1.map Value.number, (self.subtract a b).2)
  | .multiply a b => ((self.multiply a b).1.map Value.number, (self.multiply a b).2)
  | .divide a b => ((self.divide a b).1.map Value.number, (self.divide a b).2)
  | .getLastResult => (self.getLastResult.1.map Value.number, self.getLastResult.2)
  | .getHistory => (self.getHistory.1.map Value.strings, self.getHistory.2)
  | .clearHistory => (self.clearHistory.1.map (fun _ => Value.void), self.clearHistory.2)
  | .power base exponent =>
    ((self.power std_pow base exponent).1.map Value.number,
      (self.power std_pow base exponent).2)
  | .sqrt number => ((self.sqrt number).1.map Value.number, (self.sqrt number).2)

/-- The object after a sequence of public calls, made one after the other by a caller
that goes on after a call that throws. -/
def Calculator.run (std_pow : Double → Double → Double) (self : MathUtils.Calculator) :
    List Call → MathUtils.Calculator
  | [] => self
  | c :: cs => Calculator.run std_pow (self.call std_pow c).2 cs

/-- What the caller of a sequence of public calls observes: each call with its outcome,
in the order of the calls. -/
def Calculator.outcomes (std_pow : Double → Double → Double) (self : MathUtils.Calculator) :
    List Call → List (Call × Except Exception Value)
  | [] => []
  | c :: cs =>
    (c, (self.call std_pow c).1) :: Calculator.outcomes std_pow (self.call std_pow c).2 cs

/-- The number that an observed call returned, when the call is one of the arithmetic
operations and returned. -/
def returnedNumber : Call × Except Exception Value → Option Double
  | (c, .ok (.number v)) => if c.isArithmetic then some v else none
  | (_, .ok (.strings _)) => none
  | (_, .ok .void) => none
  | (_, .error _) => none

/-- The value that the specification gives to `lastResult`, read off the observed calls
(the most recent one first): the value returned by the most recent arithmetic call that
returned, looking back no further than the most recent `clearHistory`, and `0.0` when
there is none. -/
def lastReturned : List (Call × Except Exception Value) → Double
  | [] => 0.0
  | e :: earlier =>
    if e.1 = Call.clearHistory then 0.0
    else match returnedNumber e with
      | some v => v
      | none => lastReturned earlier

/-- The number of arithmetic calls that returned, among the observed calls (the most
recent one first), looking back no further than the most recent `clearHistory`. -/
def succeededSinceClear : List (Call × Except Exception Value) → Nat
  | [] => 0
  | e :: earlier =>
    if e.1 = Call.clearHistory then 0
    else (if (returnedNumber e).isSome then 1 else 0) + succeededSinceClear earlier

/-- The first history entry that the specification expects after the given calls. -/
def expectedSentinel (calls : List Call) : String :=
  if Call.clearHistory ∈ calls then "History cleared" else "Calculator initialized"

/-! ## The driver -/

/-- The local variables of `main` at the end of its outer `try` block. -/
structure MainLocals where
  /-- Object `calc`. -/
  calc_ : Calculator
  /-- Variable `result1`. -/
  result1 : Double
  /-- Variable `result2`. -/
  result2 : Double
  /-- Variable `result3`. -/
  result3 : Double
  /-- Variable `result4`. -/
  result4 : Double
  /-- Variable `result5`. -/
  result5 : Double
  /-- The exceptions caught by the two inner handlers, in order. -/
  caught : List Exception
  /-- The value of `calc.getLastResult()` written last. -/
  last : Double
  deriving DecidableEq, Repr

/-- The outer `try` block of `main` in `main.cpp`, without the console output: an
exception of one of the first five calls or of `getLastResult` leaves the block, one of
`divide(10.0, 0.0)` or `sqrt(-4.0)` is caught by the inner handler of that call. -/
def mainTry (std_pow : Double → Double → Double) : Except Exception MainLocals :=
  let calc_ := Calculator.Calculator
  match calc_.add 10.5 5.3 with
  | (.error e, _) => .error e
  | (.ok result1, calc_) =>
  match calc_.multiply result1 2.0 with
  | (.error e, _) => .error e
  | (.ok result2, calc_) =>
  match calc_.divide result2 3.0 with
  | (.error e, _) => .error e
  | (.ok result3, calc_) =>
  match calc_.power std_pow 2.0 8.0 with
  | (.error e, _) => .error e
  | (.ok result4, calc_) =>
  match calc_.sqrt 64.0 with
  | (.error e, _) => .error e
  | (.ok result5, calc_) =>
  match calc_.getHistory with
  | (.error e, _) => .error e
  | (.ok _, calc_) =>
  let (caught, calc_) :=
    match calc_.divide 10.0 0.0 with
    | (.ok _, calc_) => (([] : List Exception), calc_)
    | (.error e, calc_) => ([e], calc_)
  let (caught, calc_) :=
    match calc_.sqrt (-4.0) with
    | (.ok _, calc_) => (caught, calc_)
    | (.error e, calc_) => (caught ++ [e], calc_)
  match calc_.getLastResult with
  | (.error e, _) => .error e
  | (.ok last, calc_) =>
    .ok { calc_ := calc_, result1 := result1, result2 := result2, result3 := result3,
          result4 := result4, result5 := result5, caught := caught, last := last }

/-- The function `int main()` of `main.cpp`: `0` at the end of the outer `try` block,
`1` from its handler. -/
def main (std_pow : Double → Double → Double) : Int :=
  match mainTry std_pow with
  | .ok _ => 0
  | .error _ => 1

/-! ## Exact values -/

/-- Unit in the last place of a finite double with the exponent field `expo`, in units
of `2 ^ (-1074)`. -/
def Double.ulp (expo : Fin 2047) : Nat := 1 <<< (expo.val - 1)

/-- The double `r` is a square root of the double `x` up to rounding: the exact square
root of `x` lies within half a unit in the last place of `r`. In units of
`2 ^ (-1074)` the value of `x` is `mag x` and its exact root is the real square root of
`mag x * 2 ^ 1074`. A zero is the root of itself, with its sign, and `+inf` of `+inf`. -/
def Double.IsSqrtUpToRounding (r x : Double) : Prop :=
  match x, r with
  | .inf false, .inf false => True
  | .fin nx ex fx, .fin nr er fr =>
    if Double.mag ex fx = 0 then nr = nx ∧ Double.mag er fr = 0
    else nx = false ∧ nr = false ∧
      (2 * Double.mag er fr - Double.ulp er) ^ 2 ≤ 4 * (Double.mag ex fx * 2 ^ 1074) ∧
      4 * (Double.mag ex fx * 2 ^ 1074) ≤ (2 * Double.mag er fr + Double.ulp er) ^ 2
  | _, _ => False

/-- The finite double `r` has exactly the value `num / den`. -/
def Double.isExactly (r : Double) (num den : Nat) : Bool :=
  match r with
  | .fin _ e f => decide (Double.mag e f * den = num <<< 1074)
  | _ => false

/-- Modelled from the spec: the function `std::pow` of `<cmath>` is not among the
sources. The specification gives the result of `power` as `base^exp`, "standard power
semantics, including fractional/negative exponents as defined by the underlying power
primitive". For a finite base other than zero and an exponent that is an integer the
power is a rational number; when that number is a double the model returns it, as a
library does whose error stays below one unit in the last place. Every other case is
left to the primitive `prim`. -/
def Double.pow (prim : Double → Double → Double) : Double → Double → Double
  | .fin nb eb fb, .fin ne ee fe =>
    let n := Double.mag ee fe >>> 1074
    let num := if ne then 1 <<< (1074 * n) else Double.mag eb fb ^ n
    let den := if ne then Double.mag eb fb ^ n else 1 <<< (1074 * n)
    let r := Double.roundRat (nb && decide (n % 2 = 1)) num den
    if Double.mag eb fb ≠ 0 ∧ n <<< 1074 = Double.mag ee fe ∧ Double.isExactly r num den then
      r
    else prim (.fin nb eb fb) (.fin ne ee fe)
  | base, exponent => prim base exponent

/-- Known results of binary64 arithmetic, computed by the model: a tie rounded to
even, inexact quotient and square root, gradual underflow, overflow, and the
default operands of the driver. -/
theorem Double.sample_values :
    (0.1 : Double) + 0.2 = .fin false 1021 0x3333333333334 ∧
    (1.0 : Double) / 3.0 = .fin false 1021 0x5555555555555 ∧
    Double.sqrt 2.0 = .fin false 1023 0x6A09E667F3BCD ∧
    (1e-155 : Double) * 1e-155 = .fin false 0 0x12688B70E62B ∧
    (1e155 : Double) * 1e155 = .inf false ∧
    (1.0 : Double) - 1.0 = .fin false 0 0 ∧
    (10.5 : Double) + 5.3 = 15.8 ∧
    (15.8 : Double) * 2.0 = 31.6 ∧
    Double.sqrt 64.0 = 8.0 := by
  decide

/-- Known results of the conversion `%.*f`, computed by the model. -/
theorem formatNumber_sample_values :
    formatNumber 15.8 = "15.80" ∧
    formatNumber (-4.0) = "-4.00" ∧
    formatNumber 0.125 = "0.12" ∧
    formatNumber 0.375 = "0.38" ∧
    formatNumber (31.6 / 3.0) = "10.53" ∧
    formatNumber 2.5 0 = "2" ∧
    formatNumber 1e-10 12 = "0.000000000100" ∧
    formatNumber (1.0 / 0.0) = "inf" := by
  decide

/-! ## Comparison of doubles -/

/-- The comparison `b <= a` excludes `a < b`, NaN operands included. -/
theorem Double.not_lt_of_le (a b : Double) (h : b ≤ a) : ¬ a < b := by
  change Double.le b a = true at h
  change ¬ Double.lt a b = true
  match a, b with
  | .nan, _ => simp [Double.lt]
  | .inf _, .nan => simp [Double.lt]
  | .fin _ _ _, .nan => simp [Double.lt]
  | .inf na, .inf nb => cases na <;> cases nb <;> simp_all [Double.le, Double.lt]
  | .inf _, .fin _ _ _ => simp_all [Double.le, Double.lt]
  | .fin _ _ _, .inf _ => simp_all [Double.le, Double.lt]
  | .fin _ _ _, .fin _ _ _ => simp_all [Double.le, Double.lt]

/-- The literal `1e-10`: biased exponent `989`, fraction `0xb7cdfd9d7bdbb`. -/
theorem Double.literal_1e_10 :
    (1e-10 : Double) = .fin false 989 3233525618163131 := by decide

/-- A significand has at most 53 bits. -/
theorem Double.mant_lt (e : Fin 2047) (f : Fin 4503599627370496) :
    Double.mant e f < 9007199254740992 := by
  unfold Double.mant
  split <;> omega

set_option exponentiation.threshold 1100 in
/-- Magnitude of the literal `1e-10` in units of `2 ^ (-1074)`. -/
theorem Double.mag_literal_1e_10 :
    Double.mag 989 3233525618163131 = 7737125245533627 * 2 ^ 988 := by
  decide

/-- A finite double is below the literal `1e-10` exactly when its exact magnitude,
`mag * 2 ^ (-1074)`, is below the real number `10 ^ (-10)`. -/
theorem Double.abs_lt_1e_10_iff (n : Bool) (e : Fin 2047) (f : Fin 4503599627370496) :
    Double.abs (.fin n e f) < 1e-10 ↔ Double.mag e f * 10 ^ 10 < 2 ^ 1074 := by
  have hm := Double.mant_lt e f
  rw [Double.literal_1e_10]
  change Double.lt (.fin false e f) (.fin false 989 3233525618163131) = true ↔ _
  have hM := Double.mag_literal_1e_10
  simp only [Double.lt, Double.sval, hM, decide_eq_true_eq, Bool.false_eq_true, if_false]
  have hmag : Double.mag e f = Double.mant e f * 2 ^ (e.val - 1) := by
    simp [Double.mag, Nat.shiftLeft_eq]
  have h1074 : (2:Nat) ^ 1074 = 2 ^ 86 * 2 ^ 988 := by rw [← pow_add]
  have hpos : 0 < (2:Nat) ^ 988 := by positivity
  constructor
  · intro h
    have h : Double.mag e f < 7737125245533627 * 2 ^ 988 := by exact_mod_cast h
    -- the doubles below the literal are at most its predecessor
    have hle : Double.mag e f ≤ 7737125245533626 * 2 ^ 988 := by
      rw [hmag] at h ⊢
      by_cases hs : e.val - 1 < 988
      · have hs987 : e.val - 1 ≤ 987 := by omega
        have key : ∀ q, e.val - 1 ≤ q → (2:Nat) ^ (e.val - 1) ≤ 2 ^ q :=
          fun q hq => Nat.pow_le_pow_right (by decide) hq
        have := key 987 hs987
        have hstep : Double.mant e f * 2 ^ (e.val - 1) ≤ 9007199254740992 * 2 ^ 987 :=
          Nat.mul_le_mul (by omega) this
        have h988 : (2:Nat) ^ 988 = 2 ^ 987 * 2 := by rw [← pow_succ]
        rw [h988]
        generalize (2:Nat) ^ 987 = p at hstep
        omega
      · obtain ⟨k, hk⟩ : ∃ k, e.val - 1 = 988 + k := ⟨e.val - 1 - 988, by omega⟩
        rw [hk, pow_add] at h ⊢
        have h' : Double.mant e f * 2 ^ k < 7737125245533627 := by
          by_contra hc
          push_neg at hc
          have := Nat.mul_le_mul_right (2 ^ 988) hc
          nlinarith
        nlinarith
    rw [h1074]
    calc Double.mag e f * 10 ^ 10 ≤ 7737125245533626 * 2 ^ 988 * 10 ^ 10 :=
          Nat.mul_le_mul_right _ hle
      _ = (7737125245533626 * 10 ^ 10) * 2 ^ 988 := by ring
      _ < 2 ^ 86 * 2 ^ 988 := Nat.mul_lt_mul_of_pos_right (by norm_num) hpos
  · intro h
    by_contra hc
    push_neg at hc
    have hc : 7737125245533627 * 2 ^ 988 ≤ Double.mag e f := by exact_mod_cast hc
    have := Nat.mul_le_mul_right (10 ^ 10) hc
    rw [h1074] at h
    have h2 : 2 ^ 86 * 2 ^ 988 < 7737125245533627 * 2 ^ 988 * 10 ^ 10 := by
      calc 2 ^ 86 * 2 ^ 988 < (7737125245533627 * 10 ^ 10) * 2 ^ 988 :=
            Nat.mul_lt_mul_of_pos_right (by norm_num) hpos
        _ = 7737125245533627 * 2 ^ 988 * 10 ^ 10 := by ring
    omega

/-- A double is below `0` exactly when it is `-inf` or a finite value with the sign
bit set and a magnitude other than zero; a NaN and `-0.0` are not below `0`. -/
theorem Double.lt_zero_iff (x : Double) :
    x < 0 ↔ x = .inf true ∨ ∃ e f, x = .fin true e f ∧ 0 < Double.mag e f := by
  have h0 : (0 : Double) = .fin false 0 0 := by decide
  have hm : Double.mag 0 0 = 0 := by decide
  rw [h0]
  change Double.lt x (.fin false 0 0) = true ↔ _
  match x with
  | .nan => simp [Double.lt]
  | .inf n => simp [Double.lt]
  | .fin n e f =>
    cases n with
    | false =>
      simp only [Double.lt, Double.sval, hm, decide_eq_true_eq, Bool.false_eq_true, if_false]
      constructor
      · intro h
        omega
      · rintro (h | ⟨e2, f2, h, _⟩) <;> cases h
    | true =>
      simp only [Double.lt, Double.sval, hm, decide_eq_true_eq, Bool.false_eq_true, if_false,
        if_true]
      constructor
      · intro h
        exact Or.inr ⟨e, f, rfl, by omega⟩
      · rintro (h | ⟨e2, f2, h, hpos⟩)
        · cases h
        · cases h
          omega

/-! ## Failure conditions -/

/-- C1: `divide(a, b)` throws exactly when `|b| < 1e-10`; what it throws is
`std::invalid_argument`, and the object after a call that throws is the object before
it, so `lastResult` and the whole `history` are unchanged. -/
theorem divide_fails_iff_near_zero (s : Calculator) (a b : Double) :
    ((∃ e, (s.divide a b).1 = .error e) ↔ Double.abs b < 1e-10) ∧
    (∀ e, (s.divide a b).1 = .error e →
      e = .invalid_argument "Division by zero is not allowed" ∧
      (s.divide a b).2 = s ∧
      (s.divide a b).2.lastResult = s.lastResult ∧
      (s.divide a b).2.history = s.history) := by
  by_cases h : Double.abs b < 1e-10
  · simp [Calculator.divide, h]
  · simp [Calculator.divide, h]

/-- The call `divide(10.0, 0.0)` of the driver, on a new calculator: it throws
`std::invalid_argument` and the calculator is unchanged. -/
theorem divide_fails_iff_near_zero_witness :
    (Calculator.Calculator.divide 10.0 0.0).1 =
        .error (.invalid_argument "Division by zero is not allowed") ∧
      (Calculator.Calculator.divide 10.0 0.0).2 = Calculator.Calculator := by
  have h := divide_fails_iff_near_zero Calculator.Calculator 10.0 0.0
  obtain ⟨e, he⟩ := h.1.mpr (by decide)
  have h2 := h.2 e he
  exact ⟨by rw [he, h2.1], h2.2.1⟩

/-- C2: `sqrt(x)` throws exactly when `x < 0`; what it throws is
`std::invalid_argument`, and the object after a call that throws is the object before
it, so `lastResult` and `history` are unchanged. -/
theorem sqrt_fails_iff_negative (s : Calculator) (x : Double) :
    ((∃ e, (s.sqrt x).1 = .error e) ↔ x < 0) ∧
    (∀ e, (s.sqrt x).1 = .error e →
      e = .invalid_argument "Square root of negative number is not allowed" ∧
      (s.sqrt x).2 = s ∧
      (s.sqrt x).2.lastResult = s.lastResult ∧
      (s.sqrt x).2.history = s.history) := by
  by_cases h : x < 0
  · simp [Calculator.sqrt, h]
  · simp [Calculator.sqrt, h]

/-- The call `sqrt(-4.0)` of the driver, on a new calculator: it throws
`std::invalid_argument` and the calculator is unchanged. -/
theorem sqrt_fails_iff_negative_witness :
    (Calculator.Calculator.sqrt (-4.0)).1 =
        .error (.invalid_argument "Square root of negative number is not allowed") ∧
      (Calculator.Calculator.sqrt (-4.0)).2 = Calculator.Calculator := by
  have h := sqrt_fails_iff_negative Calculator.Calculator (-4.0)
  obtain ⟨e, he⟩ := h.1.mpr (by decide)
  have h2 := h.2 e he
  exact ⟨by rw [he, h2.1], h2.2.1⟩

/-- C3: `add`, `subtract`, `multiply`, `power`, `getLastResult`, `getHistory` and
`clearHistory` return for every object and all operands; `divide` returns whenever
`|b| >= 1e-10` and `sqrt` returns whenever `x >= 0`. -/
theorem only_failure_conditions (std_pow : Double → Double → Double) (s : Calculator)
    (a b x : Double) :
    (∃ v, (s.add a b).1 = .ok v) ∧
    (∃ v, (s.subtract a b).1 = .ok v) ∧
    (∃ v, (s.multiply a b).1 = .ok v) ∧
    (∃ v, (s.power std_pow a b).1 = .ok v) ∧
    (∃ v, s.getLastResult.1 = .ok v) ∧
    (∃ v, s.getHistory.1 = .ok v) ∧
    (∃ v, s.clearHistory.1 = .ok v) ∧
    (Double.abs b ≥ 1e-10 → ∃ v, (s.divide a b).1 = .ok v) ∧
    (x ≥ 0 → ∃ v, (s.sqrt x).1 = .ok v) := by
  refine ⟨⟨_, rfl⟩, ⟨_, rfl⟩, ⟨_, rfl⟩, ⟨_, rfl⟩, ⟨_, rfl⟩, ⟨_, rfl⟩, ⟨_, rfl⟩,
    ?_, ?_⟩
  · intro h
    have hlt := Double.not_lt_of_le _ _ h
    exact ⟨a / b, by simp [Calculator.divide, hlt]⟩
  · intro h
    have hlt := Double.not_lt_of_le _ _ h
    exact ⟨Double.sqrt x, by simp [Calculator.sqrt, hlt]⟩

/-- The calls `divide(31.6, 3.0)` and `sqrt(64.0)` of the driver, on a new calculator,
return. -/
theorem only_failure_conditions_witness :
    (Calculator.Calculator.divide 31.6 3.0).1.isOk = true ∧
      (Calculator.Calculator.sqrt 64.0).1.isOk = true := by
  have h := only_failure_conditions (fun a _ => a) Calculator.Calculator 31.6 3.0 64.0
  obtain ⟨v, hv⟩ := h.2.2.2.2.2.2.2.1 (by decide)
  obtain ⟨w, hw⟩ := h.2.2.2.2.2.2.2.2 (by decide)
  rw [hv, hw]
  exact ⟨rfl, rfl⟩

/-! ## Results -/

/-- C4: whatever the object, `add(a, b)` returns `a + b`, `subtract(a, b)` returns
`a - b`, `multiply(a, b)` returns `a * b` and, when `|b| >= 1e-10`, `divide(a, b)`
returns `a / b`, each in the arithmetic of `double`. -/
theorem arithmetic_results (s : Calculator) (a b : Double) :
    (s.add a b).1 = .ok (a + b) ∧
    (s.subtract a b).1 = .ok (a - b) ∧
    (s.multiply a b).1 = .ok (a * b) ∧
    (Double.abs b ≥ 1e-10 → (s.divide a b).1 = .ok (a / b)) := by
  refine ⟨rfl, rfl, rfl, ?_⟩
  intro h
  have hlt := Double.not_lt_of_le _ _ h
  simp [Calculator.divide, hlt]

/-- The calls `add(10.5, 5.3)` and `divide(31.6, 3.0)` of the driver, on a new
calculator. -/
theorem arithmetic_results_witness :
    (Calculator.Calculator.add 10.5 5.3).1 = .ok 15.8 ∧
      (Calculator.Calculator.divide 31.6 3.0).1 = .ok (31.6 / 3.0) :=
  ⟨(arithmetic_results Calculator.Calculator 10.5 5.3).1.trans (by decide),
    (arithmetic_results Calculator.Calculator 31.6 3.0).2.2.2 (by decide)⟩

/-- C5: after a call of `add`, `subtract`, `multiply`, `divide`, `power` or `sqrt`
that returns `v`, `getLastResult()` on the object returns `v`. -/
theorem getLastResult_after_success (std_pow : Double → Double → Double) (s : Calculator)
    (a b x v : Double) :
    ((s.add a b).1 = .ok v → (s.add a b).2.getLastResult.1 = .ok v) ∧
    ((s.subtract a b).1 = .ok v → (s.subtract a b).2.getLastResult.1 = .ok v) ∧
    ((s.multiply a b).1 = .ok v → (s.multiply a b).2.getLastResult.1 = .ok v) ∧
    ((s.divide a b).1 = .ok v → (s.divide a b).2.getLastResult.1 = .ok v) ∧
    ((s.power std_pow a b).1 = .ok v → (s.power std_pow a b).2.getLastResult.1 = .ok v) ∧
    ((s.sqrt x).1 = .ok v → (s.sqrt x).2.getLastResult.1 = .ok v) := by
  refine ⟨id, id, id, ?_, id, ?_⟩
  · by_cases h : Double.abs b < 1e-10 <;> simp [Calculator.divide, Calculator.getLastResult, h]
  · by_cases h : x < 0 <;> simp [Calculator.sqrt, Calculator.getLastResult, h]

/-- The calls `add(10.5, 5.3)` and `sqrt(64.0)` of the driver, on a new calculator:
`getLastResult()` then returns `15.8` and `8.0`. -/
theorem getLastResult_after_success_witness :
    (Calculator.Calculator.add 10.5 5.3).2.getLastResult.1 = .ok 15.8 ∧
      (Calculator.Calculator.sqrt 64.0).2.getLastResult.1 = .ok 8.0 :=
  ⟨(getLastResult_after_success (fun a _ => a) Calculator.Calculator 10.5 5.3 64.0 15.8).1
      (by decide),
    (getLastResult_after_success (fun a _ => a) Calculator.Calculator 10.5 5.3 64.0
      8.0).2.2.2.2.2 (by decide)⟩

/-! ## History -/

/-- C6: a call of one of the six operations that returns leaves the old history as a
prefix and adds exactly one entry behind it; a call of `divide` or `sqrt` that throws
leaves the length of the history as it was. -/
theorem history_grows_by_one (std_pow : Double → Double → Double) (s : Calculator)
    (a b x : Double) :
    (∀ v, (s.add a b).1 = .ok v → ∃ entry,
      (s.add a b).2.history = s.history ++ [entry] ∧
      (s.add a b).2.history.length = s.history.length + 1) ∧
    (∀ v, (s.subtract a b).1 = .ok v → ∃ entry,
      (s.subtract a b).2.history = s.history ++ [entry] ∧
      (s.subtract a b).2.history.length = s.history.length + 1) ∧
    (∀ v, (s.multiply a b).1 = .ok v → ∃ entry,
      (s.multiply a b).2.history = s.history ++ [entry] ∧
      (s.multiply a b).2.history.length = s.history.length + 1) ∧
    (∀ v, (s.divide a b).1 = .ok v → ∃ entry,
      (s.divide a b).2.history = s.history ++ [entry] ∧
      (s.divide a b).2.history.length = s.history.length + 1) ∧
    (∀ v, (s.power std_pow a b).1 = .ok v → ∃ entry,
      (s.power std_pow a b).2.history = s.history ++ [entry] ∧
      (s.power std_pow a b).2.history.length = s.history.length + 1) ∧
    (∀ v, (s.sqrt x).1 = .ok v → ∃ entry,
      (s.sqrt x).2.history = s.history ++ [entry] ∧
      (s.sqrt x).2.history.length = s.history.length + 1) ∧
    (∀ e, (s.divide a b).1 = .error e →
      (s.divide a b).2.history.length = s.history.length) ∧
    (∀ e, (s.sqrt x).1 = .error e → (s.sqrt x).2.history.length = s.history.length) := by
  refine ⟨?_, ?_, ?_, ?_, ?_, ?_, ?_, ?_⟩
  · intro v _
    exact ⟨_, rfl, by simp [Calculator.add]⟩
  · intro v _
    exact ⟨_, rfl, by simp [Calculator.subtract]⟩
  · intro v _
    exact ⟨_, rfl, by simp [Calculator.multiply]⟩
  · intro v hv
    by_cases h : Double.abs b < 1e-10
    · simp [Calculator.divide, h] at hv
    · exact ⟨formatNumber a ++ " / " ++ formatNumber b ++ " = " ++ formatNumber (a / b),
        by simp [Calculator.divide, h], by simp [Calculator.divide, h]⟩
  · intro v _
    exact ⟨_, rfl, by simp [Calculator.power]⟩
  · intro v hv
    by_cases h : x < 0
    · simp [Calculator.sqrt, h] at hv
    · exact ⟨"sqrt(" ++ formatNumber x ++ ") = " ++ formatNumber (Double.sqrt x),
        by simp [Calculator.sqrt, h], by simp [Calculator.sqrt, h]⟩
  · intro e he
    by_cases h : Double.abs b < 1e-10
    · simp [Calculator.divide, h]
    · simp [Calculator.divide, h] at he
  · intro e he
    by_cases h : x < 0
    · simp [Calculator.sqrt, h]
    · simp [Calculator.sqrt, h] at he

/-- The calls `add(10.5, 5.3)` and `divide(10.0, 0.0)` of the driver, on a new
calculator: the first makes the history two entries long, the second leaves it one
entry long. -/
theorem history_grows_by_one_witness :
    (Calculator.Calculator.add 10.5 5.3).2.history.length = 2 ∧
      (Calculator.Calculator.divide 10.0 0.0).2.history.length = 1 := by
  have h := history_grows_by_one (fun a _ => a) Calculator.Calculator 10.5 5.3 64.0
  have h0 := history_grows_by_one (fun a _ => a) Calculator.Calculator 10.0 0.0 64.0
  obtain ⟨_, _, hlen⟩ := h.1 15.8 (by decide)
  exact ⟨hlen, h0.2.2.2.2.2.2.1 _ (show _ = Except.error
    (Exception.invalid_argument "Division by zero is not allowed") by decide)⟩

/-- The text of a binary entry, written with the operator symbol apart, is the text
that the member functions insert with the symbol between its two blanks. -/
theorem binary_entry_text (fa fb fr sym : String) :
    fa ++ " " ++ sym ++ " " ++ fb ++ " = " ++ fr =
      fa ++ (" " ++ sym ++ " ") ++ fb ++ " = " ++ fr := by
  simp only [String.append_assoc]

/-- C7: the entry that a returning call appends is
`formatNumber(a) ++ " " ++ sym ++ " " ++ formatNumber(b) ++ " = " ++ formatNumber(r)`
with `sym` one of `+ - * / ^` for `add`, `subtract`, `multiply`, `divide`, `power`,
and `"sqrt(" ++ formatNumber(x) ++ ") = " ++ formatNumber(r)` for `sqrt`, where `r` is
the value returned and every `formatNumber` has the precision `2`. -/
theorem history_entry_format (std_pow : Double → Double → Double) (s : Calculator)
    (a b x r : Double) :
    ((s.add a b).1 = .ok r → (s.add a b).2.history = s.history ++
      [formatNumber a 2 ++ " " ++ "+" ++ " " ++ formatNumber b 2 ++ " = " ++
        formatNumber r 2]) ∧
    ((s.subtract a b).1 = .ok r → (s.subtract a b).2.history = s.history ++
      [formatNumber a 2 ++ " " ++ "-" ++ " " ++ formatNumber b 2 ++ " = " ++
        formatNumber r 2]) ∧
    ((s.multiply a b).1 = .ok r → (s.multiply a b).2.history = s.history ++
      [formatNumber a 2 ++ " " ++ "*" ++ " " ++ formatNumber b 2 ++ " = " ++
        formatNumber r 2]) ∧
    ((s.divide a b).1 = .ok r → (s.divide a b).2.history = s.history ++
      [formatNumber a 2 ++ " " ++ "/" ++ " " ++ formatNumber b 2 ++ " = " ++
        formatNumber r 2]) ∧
    ((s.power std_pow a b).1 = .ok r → (s.power std_pow a b).2.history = s.history ++
      [formatNumber a 2 ++ " " ++ "^" ++ " " ++ formatNumber b 2 ++ " = " ++
        formatNumber r 2]) ∧
    ((s.sqrt x).1 = .ok r → (s.sqrt x).2.history = s.history ++
      ["sqrt(" ++ formatNumber x 2 ++ ") = " ++ formatNumber r 2]) := by
  simp only [binary_entry_text]
  refine ⟨?_, ?_, ?_, ?_, ?_, ?_⟩
  · intro h
    have hr : a + b = r := by simpa [Calculator.add] using h
    subst hr
    rfl
  · intro h
    have hr : a - b = r := by simpa [Calculator.subtract] using h
    subst hr
    rfl
  · intro h
    have hr : a * b = r := by simpa [Calculator.multiply] using h
    subst hr
    rfl
  · intro h
    by_cases hb : Double.abs b < 1e-10
    · simp [Calculator.divide, hb] at h
    · have hr : a / b = r := by simpa [Calculator.divide, hb] using h
      subst hr
      simp only [Calculator.divide, hb, if_false]
      rfl
  · intro h
    have hr : std_pow a b = r := by simpa [Calculator.power] using h
    subst hr
    rfl
  · intro h
    by_cases hx : x < 0
    · simp [Calculator.sqrt, hx] at h
    · have hr : Double.sqrt x = r := by simpa [Calculator.sqrt, hx] using h
      subst hr
      simp only [Calculator.sqrt, hx, if_false]

/-- The calls `add(10.5, 5.3)` and `sqrt(64.0)` of the driver, on a new calculator,
append the entries `10.50 + 5.30 = 15.80` and `sqrt(64.00) = 8.00`. -/
theorem history_entry_format_witness :
    (Calculator.Calculator.add 10.5 5.3).2.history =
        ["Calculator initialized", "10.50 + 5.30 = 15.80"] ∧
      (Calculator.Calculator.sqrt 64.0).2.history =
        ["Calculator initialized", "sqrt(64.00) = 8.00"] :=
  ⟨((history_entry_format (fun a _ => a) Calculator.Calculator 10.5 5.3 64.0 15.8).1
      (by decide)).trans (by decide),
    ((history_entry_format (fun a _ => a) Calculator.Calculator 10.5 5.3 64.0
      8.0).2.2.2.2.2 (by decide)).trans (by decide)⟩

/-! ## `clearHistory` and the constructor -/

/-- C8: `clearHistory()` returns for every object, and the object after it has the
history `["History cleared"]`, of length 1, and the last result `0.0`. -/
theorem clearHistory_resets (s : Calculator) :
    s.clearHistory.1 = .ok () ∧
    s.clearHistory.2 = { history := ["History cleared"], lastResult := 0.0 } ∧
    s.clearHistory.2.getHistory.1 = .ok ["History cleared"] ∧
    s.clearHistory.2.history.length = 1 ∧
    s.clearHistory.2.getLastResult.1 = .ok 0.0 :=
  ⟨rfl, rfl, rfl, rfl, rfl⟩

/-- C9: a newly constructed calculator has the history `["Calculator initialized"]`
and `getLastResult()` returns `0.0`. -/
theorem new_calculator_state :
    Calculator.Calculator.history = ["Calculator initialized"] ∧
    Calculator.Calculator.getHistory.1 = .ok ["Calculator initialized"] ∧
    Calculator.Calculator.getLastResult.1 = .ok 0.0 :=
  ⟨rfl, rfl, rfl⟩

/-- C10, the claim as stated fails: immediately after construction `getHistory()` is not
the empty sequence, so it is not the case that `getHistory()` is empty and
`getLastResult()` is `0.0`; the history of a new calculator is not empty. -/
theorem new_calculator_history_not_empty :
    ¬ (Calculator.Calculator.getHistory.1 = .ok [] ∧
        Calculator.Calculator.getLastResult.1 = .ok 0.0) ∧
    Calculator.Calculator.history ≠ [] :=
  ⟨by decide, by decide⟩

/-- C10, the claim as amended: the default constructor initializes the calculator with a
history of exactly one entry, the welcome message `"Calculator initialized"`, and zero
result: immediately after construction `getHistory()` returns the one-element sequence
`["Calculator initialized"]`, `getLastResult()` returns `0.0`, and neither call changes
the object. -/
theorem new_calculator_welcome_entry :
    Calculator.Calculator.getHistory =
      (.ok ["Calculator initialized"], Calculator.Calculator) ∧
    Calculator.Calculator.history.length = 1 ∧
    Calculator.Calculator.getLastResult = (.ok 0.0, Calculator.Calculator) :=
  ⟨rfl, rfl, rfl⟩

/-! ## Sample values of the specification of a run -/

/-- The functions that read the specification off the observed calls, on a run of five
calls: `add(1.0, 2.0)`, `clearHistory()`, a `divide` that throws, `sqrt(4.0)` and
`getLastResult()`. -/
theorem run_sample_values :
    Calculator.outcomes (fun a _ => a) Calculator.Calculator
        [.add 1.0 2.0, .clearHistory, .divide 1.0 0.0, .sqrt 4.0, .getLastResult] =
      [(.add 1.0 2.0, .ok (.number 3.0)), (.clearHistory, .ok .void),
        (.divide 1.0 0.0, .error (.invalid_argument "Division by zero is not allowed")),
        (.sqrt 4.0, .ok (.number 2.0)), (.getLastResult, .ok (.number 2.0))] ∧
    lastReturned [(.getLastResult, .ok (.number 2.0)), (.sqrt 4.0, .ok (.number 2.0)),
        (.divide 1.0 0.0, .error (.invalid_argument "Division by zero is not allowed")),
        (.clearHistory, .ok .void), (.add 1.0 2.0, .ok (.number 3.0))] = 2.0 ∧
    lastReturned [(.divide 1.0 0.0, .error (.invalid_argument "Division by zero is not allowed")),
        (.clearHistory, .ok .void), (.add 1.0 2.0, .ok (.number 3.0))] = 0.0 ∧
    lastReturned [(.getLastResult, .ok (.number 3.0)), (.add 1.0 2.0, .ok (.number 3.0))] =
      3.0 ∧
    succeededSinceClear [(.getLastResult, .ok (.number 2.0)), (.sqrt 4.0, .ok (.number 2.0)),
        (.divide 1.0 0.0, .error (.invalid_argument "Division by zero is not allowed")),
        (.clearHistory, .ok .void), (.add 1.0 2.0, .ok (.number 3.0))] = 1 ∧
    expectedSentinel [.add 1.0 2.0, .clearHistory, .divide 1.0 0.0] = "History cleared" ∧
    expectedSentinel [.add 1.0 2.0, .divide 1.0 0.0] = "Calculator initialized" := by
  decide

/-! ## Reachable states -/

/-- The object after a sequence of calls followed by one more call. -/
theorem Calculator.run_append (std_pow : Double → Double → Double) (s : MathUtils.Calculator)
    (cs : List Call) (c : Call) :
    Calculator.run std_pow s (cs ++ [c]) =
      (Calculator.call std_pow (Calculator.run std_pow s cs) c).2 := by
  induction cs generalizing s with
  | nil => rfl
  | cons d ds ih => exact ih _

/-- The observations of a sequence of calls followed by one more call. -/
theorem Calculator.outcomes_append (std_pow : Double → Double → Double)
    (s : MathUtils.Calculator) (cs : List Call) (c : Call) :
    Calculator.outcomes std_pow s (cs ++ [c]) =
      Calculator.outcomes std_pow s cs ++
        [(c, (Calculator.call std_pow (Calculator.run std_pow s cs) c).1)] := by
  induction cs generalizing s with
  | nil => rfl
  | cons d ds ih =>
    show (d, _) :: Calculator.outcomes std_pow _ (ds ++ [c]) = _
    rw [ih]
    rfl

/-- One public call leaves a history that holds an entry with an entry. -/
theorem Calculator.call_history_pos (std_pow : Double → Double → Double)
    (s : MathUtils.Calculator) (c : Call) (h : 1 ≤ s.history.length) :
    1 ≤ (Calculator.call std_pow s c).2.history.length := by
  cases c with
  | add a b => simp [Calculator.call, Calculator.add]
  | subtract a b => simp [Calculator.call, Calculator.subtract]
  | multiply a b => simp [Calculator.call, Calculator.multiply]
  | divide a b =>
    by_cases hb : Double.abs b < 1e-10 <;> simp [Calculator.call, Calculator.divide, hb, h]
  | getLastResult => simpa [Calculator.call, Calculator.getLastResult] using h
  | getHistory => simpa [Calculator.call, Calculator.getHistory] using h
  | clearHistory => simp [Calculator.call, Calculator.clearHistory]
  | power a b => simp [Calculator.call, Calculator.power]
  | sqrt x =>
    by_cases hx : x < 0 <;> simp [Calculator.call, Calculator.sqrt, hx, h]

/-- C11: in every state reached from a newly constructed calculator by a finite
sequence of public calls, with any operands and the throwing calls included, the
history has at least one entry. -/
theorem history_never_empty (std_pow : Double → Double → Double) (calls : List Call) :
    1 ≤ (Calculator.run std_pow Calculator.Calculator calls).history.length := by
  induction calls using List.reverseRecOn with
  | nil => exact Nat.le_refl 1
  | append_singleton cs c ih =>
    rw [Calculator.run_append]
    exact Calculator.call_history_pos std_pow _ c ih

/-- C12: in every state reached from a newly constructed calculator by a finite
sequence of public calls, `lastResult` is the value returned by the most recent
arithmetic call that returned since the construction or the last `clearHistory`, and
`0.0` when there is none. -/
theorem lastResult_is_last_returned (std_pow : Double → Double → Double)
    (calls : List Call) :
    (Calculator.run std_pow Calculator.Calculator calls).lastResult =
      lastReturned (Calculator.outcomes std_pow Calculator.Calculator calls).reverse := by
  induction calls using List.reverseRecOn with
  | nil => rfl
  | append_singleton cs c ih =>
    rw [Calculator.run_append, Calculator.outcomes_append, List.reverse_append,
      List.reverse_singleton, List.singleton_append, lastReturned, ← ih]
    generalize Calculator.run std_pow Calculator.Calculator cs = s
    cases c with
    | add a b =>
      simp [Calculator.call, Calculator.add, returnedNumber, Call.isArithmetic, Except.map]
    | subtract a b =>
      simp [Calculator.call, Calculator.subtract, returnedNumber, Call.isArithmetic, Except.map]
    | multiply a b =>
      simp [Calculator.call, Calculator.multiply, returnedNumber, Call.isArithmetic, Except.map]
    | divide a b =>
      by_cases hb : Double.abs b < 1e-10 <;>
        simp [Calculator.call, Calculator.divide, hb, returnedNumber, Call.isArithmetic,
          Except.map]
    | getLastResult =>
      simp [Calculator.call, Calculator.getLastResult, returnedNumber, Call.isArithmetic,
        Except.map]
    | getHistory =>
      simp [Calculator.call, Calculator.getHistory, returnedNumber, Except.map]
    | clearHistory => simp [Calculator.call, Calculator.clearHistory]
    | power a b =>
      simp [Calculator.call, Calculator.power, returnedNumber, Call.isArithmetic, Except.map]
    | sqrt x =>
      by_cases hx : x < 0 <;>
        simp [Calculator.call, Calculator.sqrt, hx, returnedNumber, Call.isArithmetic,
          Except.map]

/-- C13: on a calculator in any state, `add(10.5, 5.3)` returns `15.8` and the history
gains the entry `10.50 + 5.30 = 15.80` as its new last element (and nothing else
changes in it). -/
theorem add_scenario (s : Calculator) :
    (s.add 10.5 5.3).1 = .ok 15.8 ∧
    (s.add 10.5 5.3).2.history = s.history ++ ["10.50 + 5.30 = 15.80"] ∧
    (s.add 10.5 5.3).2.history.getLast? = some "10.50 + 5.30 = 15.80" := by
  have h1 : (10.5 : Double) + 5.3 = 15.8 := by decide
  have h2 : formatNumber 10.5 ++ " + " ++ formatNumber 5.3 ++ " = " ++ formatNumber 15.8 =
      "10.50 + 5.30 = 15.80" := by decide
  simp [Calculator.add, h1, h2]

/-- C16: `getLastResult()` and `getHistory()` return `lastResult` and `history` and
leave the object as it is; after any sequence of such calls the object is still the
same, and every call of the sequence has returned the same `lastResult` or `history`. -/
theorem getters_have_no_effect (std_pow : Double → Double → Double) (s : Calculator)
    (qs : List Call) (hq : ∀ c ∈ qs, c = Call.getLastResult ∨ c = Call.getHistory) :
    s.getLastResult = (.ok s.lastResult, s) ∧
    s.getHistory = (.ok s.history, s) ∧
    Calculator.run std_pow s qs = s ∧
    (∀ e ∈ Calculator.outcomes std_pow s qs,
      e = (Call.getLastResult, .ok (.number s.lastResult)) ∨
      e = (Call.getHistory, .ok (.strings s.history))) := by
  refine ⟨rfl, rfl, ?_, ?_⟩
  · induction qs with
    | nil => rfl
    | cons c cs ih =>
      have hc := hq c (List.mem_cons_self c cs)
      have hcs : ∀ d ∈ cs, d = Call.getLastResult ∨ d = Call.getHistory :=
        fun d hd => hq d (List.mem_cons_of_mem c hd)
      rcases hc with hc | hc <;> subst hc <;> exact ih hcs
  · induction qs with
    | nil => intro e he; cases he
    | cons c cs ih =>
      have hc := hq c (List.mem_cons_self c cs)
      have hcs : ∀ d ∈ cs, d = Call.getLastResult ∨ d = Call.getHistory :=
        fun d hd => hq d (List.mem_cons_of_mem c hd)
      intro e he
      rcases hc with hc | hc <;> subst hc
      · rcases List.mem_cons.mp he with h | h
        · exact Or.inl h
        · exact ih hcs e h
      · rcases List.mem_cons.mp he with h | h
        · exact Or.inr h
        · exact ih hcs e h

/-- Three calls of the two functions on a new calculator: it is unchanged, and the
caller has seen `0.0`, the initial history, and `0.0` again. -/
theorem getters_have_no_effect_witness :
    Calculator.run (fun a _ => a) Calculator.Calculator
        [Call.getLastResult, Call.getHistory, Call.getLastResult] = Calculator.Calculator ∧
      Calculator.outcomes (fun a _ => a) Calculator.Calculator
        [Call.getLastResult, Call.getHistory, Call.getLastResult] =
        [(Call.getLastResult, .ok (.number 0.0)),
          (Call.getHistory, .ok (.strings ["Calculator initialized"])),
          (Call.getLastResult, .ok (.number 0.0))] :=
  ⟨(getters_have_no_effect (fun a _ => a) Calculator.Calculator
      [Call.getLastResult, Call.getHistory, Call.getLastResult] (by decide)).2.2.1,
    by decide⟩

/-- C18: the driver ends its outer `try` block and returns `0`: the five calls
`add(10.5, 5.3)`, `multiply(result1, 2.0)`, `divide(result2, 3.0)`, `power(2.0, 8.0)`
and `sqrt(64.0)` return, `divide(10.0, 0.0)` and `sqrt(-4.0)` throw and are caught, the
final `getLastResult()` is the `8.0` that `sqrt(64.0)` returned, and the history holds
six entries. -/
theorem driver_exit_status (std_pow : Double → Double → Double) :
    main std_pow = 0 ∧
    mainTry std_pow = .ok
      { calc_ :=
          { history := ["Calculator initialized", "10.50 + 5.30 = 15.80",
              "15.80 * 2.00 = 31.60", "31.60 / 3.00 = 10.53",
              "2.00 ^ 8.00 = " ++ formatNumber (std_pow 2.0 8.0), "sqrt(64.00) = 8.00"],
            lastResult := 8.0 },
        result1 := 15.8,
        result2 := 31.6,
        result3 := 31.6 / 3.0,
        result4 := std_pow 2.0 8.0,
        result5 := 8.0,
        caught := [.invalid_argument "Division by zero is not allowed",
          .invalid_argument "Square root of negative number is not allowed"],
        last := 8.0 } ∧
    (∀ m, mainTry std_pow = .ok m →
      m.last = m.result5 ∧ m.calc_.history.length = 6 ∧ m.caught.length = 2) := by
  have h : mainTry std_pow = .ok
      { calc_ :=
          { history := ["Calculator initialized", "10.50 + 5.30 = 15.80",
              "15.80 * 2.00 = 31.60", "31.60 / 3.00 = 10.53",
              "2.00 ^ 8.00 = " ++ formatNumber (std_pow 2.0 8.0), "sqrt(64.00) = 8.00"],
            lastResult := 8.0 },
        result1 := 15.8,
        result2 := 31.6,
        result3 := 31.6 / 3.0,
        result4 := std_pow 2.0 8.0,
        result5 := 8.0,
        caught := [.invalid_argument "Division by zero is not allowed",
          .invalid_argument "Square root of negative number is not allowed"],
        last := 8.0 } := by
    rfl
  refine ⟨rfl, h, ?_⟩
  intro m hm
  rw [h] at hm
  cases hm
  exact ⟨rfl, rfl, rfl⟩

/-- The first history entry and the number of entries behind it, after one more call. -/
theorem Calculator.call_history_shape (std_pow : Double → Double → Double)
    (s : MathUtils.Calculator) (c : Call) (first : String) (rest : List String)
    (h : s.history = first :: rest) :
    ∃ rest2, (Calculator.call std_pow s c).2.history =
        (if c = Call.clearHistory then "History cleared" else first) :: rest2 ∧
      rest2.length = succeededSinceClear [(c, (Calculator.call std_pow s c).1)] +
        (if c = Call.clearHistory then 0 else rest.length) := by
  cases c with
  | add a b =>
    exact ⟨rest ++ [formatNumber a ++ " + " ++ formatNumber b ++ " = " ++ formatNumber (a + b)],
      by simp [Calculator.call, Calculator.add, h], by
      simp [Calculator.call, Calculator.add, succeededSinceClear, returnedNumber,
        Call.isArithmetic, Except.map, Nat.add_comm]⟩
  | subtract a b =>
    exact ⟨rest ++ [formatNumber a ++ " - " ++ formatNumber b ++ " = " ++ formatNumber (a - b)],
      by simp [Calculator.call, Calculator.subtract, h], by
      simp [Calculator.call, Calculator.subtract, succeededSinceClear, returnedNumber,
        Call.isArithmetic, Except.map, Nat.add_comm]⟩
  | multiply a b =>
    exact ⟨rest ++ [formatNumber a ++ " * " ++ formatNumber b ++ " = " ++ formatNumber (a * b)],
      by simp [Calculator.call, Calculator.multiply, h], by
      simp [Calculator.call, Calculator.multiply, succeededSinceClear, returnedNumber,
        Call.isArithmetic, Except.map, Nat.add_comm]⟩
  | divide a b =>
    by_cases hb : Double.abs b < 1e-10
    · exact ⟨rest, by simp [Calculator.call, Calculator.divide, hb, h], by
        simp [Calculator.call, Calculator.divide, hb, succeededSinceClear, returnedNumber,
          Except.map]⟩
    · exact ⟨rest ++
          [formatNumber a ++ " / " ++ formatNumber b ++ " = " ++ formatNumber (a / b)],
      by simp [Calculator.call, Calculator.divide, hb, h], by
        simp [Calculator.call, Calculator.divide, hb, succeededSinceClear, returnedNumber,
          Call.isArithmetic, Except.map, Nat.add_comm]⟩
  | getLastResult =>
    exact ⟨rest, by simp [Calculator.call, Calculator.getLastResult, h], by
      simp [Calculator.call, Calculator.getLastResult, succeededSinceClear, returnedNumber,
        Call.isArithmetic, Except.map]⟩
  | getHistory =>
    exact ⟨rest, by simp [Calculator.call, Calculator.getHistory, h], by
      simp [Calculator.call, Calculator.getHistory, succeededSinceClear, returnedNumber,
        Except.map]⟩
  | clearHistory =>
    exact ⟨[], by simp [Calculator.call, Calculator.clearHistory], by
      simp [succeededSinceClear]⟩
  | power a b =>
    exact ⟨rest ++
        [formatNumber a ++ " ^ " ++ formatNumber b ++ " = " ++ formatNumber (std_pow a b)],
      by simp [Calculator.call, Calculator.power, h], by
      simp [Calculator.call, Calculator.power, succeededSinceClear, returnedNumber,
        Call.isArithmetic, Except.map, Nat.add_comm]⟩
  | sqrt x =>
    by_cases hx : x < 0
    · exact ⟨rest, by simp [Calculator.call, Calculator.sqrt, hx, h], by
        simp [Calculator.call, Calculator.sqrt, hx, succeededSinceClear, returnedNumber,
          Except.map]⟩
    · exact ⟨rest ++ ["sqrt(" ++ formatNumber x ++ ") = " ++ formatNumber (Double.sqrt x)],
      by simp [Calculator.call, Calculator.sqrt, hx, h], by
        simp [Calculator.call, Calculator.sqrt, hx, succeededSinceClear, returnedNumber,
          Call.isArithmetic, Except.map, Nat.add_comm]⟩

/-- C19: in every state reached from a newly constructed calculator by a finite
sequence of public calls, the first history entry is `Calculator initialized` when
`clearHistory` is not among the calls and `History cleared` when it is, and the number
of entries behind it is the number of arithmetic calls that returned since the
construction or the last `clearHistory`. -/
theorem history_sentinel_and_count (std_pow : Double → Double → Double)
    (calls : List Call) :
    ∃ rest, (Calculator.run std_pow Calculator.Calculator calls).history =
        expectedSentinel calls :: rest ∧
      rest.length =
        succeededSinceClear
          (Calculator.outcomes std_pow Calculator.Calculator calls).reverse := by
  induction calls using List.reverseRecOn with
  | nil => exact ⟨[], rfl, rfl⟩
  | append_singleton cs c ih =>
    obtain ⟨rest, hrest, hlen⟩ := ih
    obtain ⟨rest2, h2, hlen2⟩ :=
      Calculator.call_history_shape std_pow _ c _ rest hrest
    refine ⟨rest2, ?_, ?_⟩
    · rw [Calculator.run_append, h2]
      by_cases hc : c = Call.clearHistory
      · simp [expectedSentinel, hc]
      · have hne : ¬ Call.clearHistory = c := fun h => hc h.symm
        simp [expectedSentinel, hc, hne]
    · rw [hlen2, Calculator.outcomes_append, List.reverse_append, List.reverse_singleton,
        List.singleton_append]
      by_cases hc : c = Call.clearHistory
      · simp [succeededSinceClear, hc]
      · simp [succeededSinceClear, hc, hlen]

/-- C20: the outcome of an arithmetic operation does not depend on the object: on two
objects and the same operands it throws the same exception or returns the same value,
appends the same entry behind the history of each, and leaves the same `lastResult`. -/
theorem arithmetic_independent_of_state (std_pow : Double → Double → Double)
    (s1 s2 : Calculator) (a b x : Double) :
    ((s1.add a b).1 = (s2.add a b).1 ∧ ∃ entry,
      (s1.add a b).2.history = s1.history ++ [entry] ∧
      (s2.add a b).2.history = s2.history ++ [entry] ∧
      (s1.add a b).2.lastResult = (s2.add a b).2.lastResult) ∧
    ((s1.subtract a b).1 = (s2.subtract a b).1 ∧ ∃ entry,
      (s1.subtract a b).2.history = s1.history ++ [entry] ∧
      (s2.subtract a b).2.history = s2.history ++ [entry] ∧
      (s1.subtract a b).2.lastResult = (s2.subtract a b).2.lastResult) ∧
    ((s1.multiply a b).1 = (s2.multiply a b).1 ∧ ∃ entry,
      (s1.multiply a b).2.history = s1.history ++ [entry] ∧
      (s2.multiply a b).2.history = s2.history ++ [entry] ∧
      (s1.multiply a b).2.lastResult = (s2.multiply a b).2.lastResult) ∧
    ((s1.power std_pow a b).1 = (s2.power std_pow a b).1 ∧ ∃ entry,
      (s1.power std_pow a b).2.history = s1.history ++ [entry] ∧
      (s2.power std_pow a b).2.history = s2.history ++ [entry] ∧
      (s1.power std_pow a b).2.lastResult = (s2.power std_pow a b).2.lastResult) ∧
    ((s1.divide a b).1 = (s2.divide a b).1 ∧
      (∀ v, (s1.divide a b).1 = .ok v → ∃ entry,
        (s1.divide a b).2.history = s1.history ++ [entry] ∧
        (s2.divide a b).2.history = s2.history ++ [entry] ∧
        (s1.divide a b).2.lastResult = (s2.divide a b).2.lastResult)) ∧
    ((s1.sqrt x).1 = (s2.sqrt x).1 ∧
      (∀ v, (s1.sqrt x).1 = .ok v → ∃ entry,
        (s1.sqrt x).2.history = s1.history ++ [entry] ∧
        (s2.sqrt x).2.history = s2.history ++ [entry] ∧
        (s1.sqrt x).2.lastResult = (s2.sqrt x).2.lastResult)) := by
  refine ⟨⟨rfl, _, rfl, rfl, rfl⟩, ⟨rfl, _, rfl, rfl, rfl⟩, ⟨rfl, _, rfl, rfl, rfl⟩,
    ⟨rfl, _, rfl, rfl, rfl⟩, ?_, ?_⟩
  · by_cases hb : Double.abs b < 1e-10
    · simp [Calculator.divide, hb]
    · refine ⟨by simp [Calculator.divide, hb], fun v _ =>
        ⟨formatNumber a ++ " / " ++ formatNumber b ++ " = " ++ formatNumber (a / b), ?_⟩⟩
      simp [Calculator.divide, hb]
  · by_cases hx : x < 0
    · simp [Calculator.sqrt, hx]
    · refine ⟨by simp [Calculator.sqrt, hx], fun v _ =>
        ⟨"sqrt(" ++ formatNumber x ++ ") = " ++ formatNumber (Double.sqrt x), ?_⟩⟩
      simp [Calculator.sqrt, hx]

/-! ## Bit length and rounding -/

/-- The number of levels found for the binary search covers `n`. -/
theorem Double.levels_spec (fuel k n : Nat) (h : n < 2 ^ 2 ^ (k + fuel)) :
    n < 2 ^ 2 ^ Double.levels fuel k n := by
  induction fuel generalizing k with
  | zero => simpa [Double.levels] using h
  | succ fuel ih =>
    unfold Double.levels
    split
    · rename_i h0
      rw [Nat.shiftRight_eq_div_pow] at h0
      exact (Nat.div_eq_zero_iff (by positivity)).mp h0
    · exact ih (k + 1) (by rwa [show k + 1 + fuel = k + (fuel + 1) by omega])

/-- The binary search returns the number of binary digits: `n < 2 ^ b ≤ 2 * n + 1`. -/
theorem Double.bitLenAux_spec (k n : Nat) (h : n < 2 ^ 2 ^ k) :
    n < 2 ^ Double.bitLenAux k n ∧ 2 ^ Double.bitLenAux k n ≤ 2 * n + 1 := by
  induction k generalizing n with
  | zero =>
    have h2 : n < 2 := by simpa using h
    unfold Double.bitLenAux
    split <;> constructor <;> omega
  | succ k ih =>
    have hP : 0 < 2 ^ 2 ^ k := by positivity
    have hsq : (2:Nat) ^ 2 ^ (k + 1) = 2 ^ 2 ^ k * 2 ^ 2 ^ k := by
      rw [pow_succ, pow_mul, pow_two]
    unfold Double.bitLenAux
    rw [Nat.shiftRight_eq_div_pow]
    split
    · rename_i h0
      exact ih n ((Nat.div_eq_zero_iff hP).mp h0)
    · rename_i h0
      have hq1 : 1 ≤ n / 2 ^ 2 ^ k := Nat.one_le_iff_ne_zero.mpr h0
      have hq2 : n / 2 ^ 2 ^ k < 2 ^ 2 ^ k := by
        rw [Nat.div_lt_iff_lt_mul hP]
        rwa [hsq] at h
      obtain ⟨hlt, hle⟩ := ih _ hq2
      have hmul : n / 2 ^ 2 ^ k * 2 ^ 2 ^ k ≤ n := Nat.div_mul_le_self n _
      have hlt2 : n < (n / 2 ^ 2 ^ k + 1) * 2 ^ 2 ^ k := by
        have := Nat.lt_succ_iff.mpr (Nat.le_refl (n / 2 ^ 2 ^ k))
        exact (Nat.div_lt_iff_lt_mul hP).mp this
      have hb1 : Double.bitLenAux k (n / 2 ^ 2 ^ k) ≠ 0 := by
        intro hb
        rw [hb] at hlt
        simp at hlt
        omega
      obtain ⟨j, hj⟩ := Nat.exists_eq_succ_of_ne_zero hb1
      rw [pow_add]
      generalize 2 ^ 2 ^ k = P at *
      generalize n / P = q at *
      rw [hj, pow_succ] at hlt hle ⊢
      generalize 2 ^ j = t at *
      have hle2 : t * 2 ≤ 2 * q := by omega
      constructor
      · calc n < (q + 1) * P := hlt2
          _ ≤ t * 2 * P := Nat.mul_le_mul_right P (by omega)
      · calc t * 2 * P ≤ 2 * q * P := Nat.mul_le_mul_right P hle2
          _ = 2 * (q * P) := by ring
          _ ≤ 2 * n + 1 := by omega

/-- The function `bitLen` returns the number of binary digits: `n < 2 ^ b ≤ 2 * n + 1`. -/
theorem Double.bitLen_spec (n : Nat) :
    n < 2 ^ Double.bitLen n ∧ 2 ^ Double.bitLen n ≤ 2 * n + 1 := by
  apply Double.bitLenAux_spec
  apply Double.levels_spec
  calc n < 2 ^ n := Nat.lt_two_pow n
    _ ≤ 2 ^ 2 ^ (0 + n) := by
      apply Nat.pow_le_pow_right (by decide)
      rw [Nat.zero_add]
      exact (Nat.lt_two_pow n).le

/-- The function `roundHalfEven` returns an integer within one half of `n / d`. -/
theorem Double.roundHalfEven_spec (n d : Nat) (hd : 0 < d) :
    2 * (Double.roundHalfEven n d * d) ≤ 2 * n + d ∧
      2 * n ≤ 2 * (Double.roundHalfEven n d * d) + d := by
  have hn : d * (n / d) + n % d = n := Nat.div_add_mod n d
  have hr : n % d < d := Nat.mod_lt n hd
  have h1 : (n / d + 1) * d = d * (n / d) + d := by ring
  have h0 : n / d * d = d * (n / d) := Nat.mul_comm _ _
  unfold Double.roundHalfEven
  simp only []
  split
  · rw [h0]; constructor <;> omega
  · split
    · split
      · rw [h0]; constructor <;> omega
      · rw [h1]; constructor <;> omega
    · rw [h1]; constructor <;> omega

/-- The integer Newton step from `x` does not go below the root `r` of `n`. -/
theorem Double.newton_ge (n x r : Nat) (hx : 0 < x) (hr : r * r ≤ n) :
    r ≤ (x + n / x) / 2 := by
  by_contra hc
  push_neg at hc
  have h3 : n < x * (n / x + 1) := Nat.lt_mul_div_succ n hx
  generalize n / x = q at hc h3
  have h2 : x + q < 2 * r := by omega
  have h4 : q + 1 ≤ 2 * r - x := by omega
  have h5 : x * (q + 1) ≤ x * (2 * r - x) := Nat.mul_le_mul_left x h4
  have hxr : x ≤ 2 * r := by omega
  obtain ⟨k, hk⟩ : ∃ k, 2 * r = x + k := ⟨2 * r - x, by omega⟩
  have h6 : 2 * r - x = k := by omega
  rw [h6] at h5
  have h7 : 4 * (x * k) ≤ (x + k) * (x + k) := by nlinarith [sq_nonneg ((x:Int) - k)]
  have h8 : (x + k) * (x + k) = 4 * (r * r) := by rw [← hk]; ring
  omega

/-- Above the root the integer Newton step goes down and halves the distance to it. -/
theorem Double.newton_lt (n x r : Nat) (hn : n < (r + 1) * (r + 1)) (hx : r < x) :
    (x + n / x) / 2 < x ∧ 2 * ((x + n / x) / 2) ≤ x + r := by
  have hx0 : 0 < x := by omega
  have h1 : n / x < r + 1 := by
    rw [Nat.div_lt_iff_lt_mul hx0]
    calc n < (r + 1) * (r + 1) := hn
      _ ≤ (r + 1) * x := Nat.mul_le_mul_left _ (by omega)
  generalize n / x = q at h1 ⊢
  constructor <;> omega

/-- With fuel for the halvings, the Newton iteration from above returns the root. -/
theorem Double.sqrtIter_spec (n r : Nat) (hr : r * r ≤ n) (hn : n < (r + 1) * (r + 1))
    (hr0 : 0 < r) (fuel x : Nat) (hx : r ≤ x) (hfuel : x < r + 2 ^ fuel) :
    Double.sqrtIter (fuel + 1) n x = r := by
  induction fuel generalizing x with
  | zero =>
    have hxr : x = r := by rw [Nat.pow_zero] at hfuel; omega
    subst hxr
    have := Double.newton_ge n x x hr0 hr
    simp only [Double.sqrtIter]
    rw [if_neg (by omega)]
  | succ fuel ih =>
    rcases Nat.eq_or_lt_of_le hx with hxr | hxr
    · subst hxr
      have := Double.newton_ge n r r hr0 hr
      simp only [Double.sqrtIter]
      rw [if_neg (by omega)]
    · obtain ⟨h1, h2⟩ := Double.newton_lt n x r hn hxr
      have h3 := Double.newton_ge n x r (by omega) hr
      have hp : 2 ^ (fuel + 1) = 2 * 2 ^ fuel := by ring
      rw [Double.sqrtIter]
      show (if (x + n / x) / 2 < x then Double.sqrtIter (fuel + 1) n ((x + n / x) / 2)
        else x) = r
      rw [if_pos h1]
      exact ih _ h3 (by omega)

/-- The function `natSqrt` returns the floor of the square root. -/
theorem Double.natSqrt_spec (n : Nat) :
    Double.natSqrt n * Double.natSqrt n ≤ n ∧
      n < (Double.natSqrt n + 1) * (Double.natSqrt n + 1) := by
  unfold Double.natSqrt
  split
  · rename_i h0
    subst h0
    simp
  · rename_i h0
    have hr := Nat.sqrt_le n
    have hn := Nat.lt_succ_sqrt n
    have hr0 : 0 < Nat.sqrt n := Nat.sqrt_pos.mpr (Nat.pos_of_ne_zero h0)
    obtain ⟨hb, _⟩ := Double.bitLen_spec n
    have hx0 : Nat.sqrt n ≤ 1 <<< ((Double.bitLen n + 1) / 2) := by
      rw [Nat.one_shiftLeft]
      by_contra hc
      push_neg at hc
      have h1 : 2 ^ ((Double.bitLen n + 1) / 2) * 2 ^ ((Double.bitLen n + 1) / 2) ≤
          Nat.sqrt n * Nat.sqrt n := Nat.mul_le_mul hc.le hc.le
      have h2 : 2 ^ Double.bitLen n ≤
          2 ^ ((Double.bitLen n + 1) / 2) * 2 ^ ((Double.bitLen n + 1) / 2) := by
        rw [← pow_add]
        exact Nat.pow_le_pow_right (by decide) (by omega)
      omega
    have hfuel : 1 <<< ((Double.bitLen n + 1) / 2) < Nat.sqrt n + 2 ^ (Double.bitLen n + 1) := by
      rw [Nat.one_shiftLeft]
      have : 2 ^ ((Double.bitLen n + 1) / 2) ≤ 2 ^ (Double.bitLen n + 1) :=
        Nat.pow_le_pow_right (by decide) (by omega)
      omega
    rw [Double.sqrtIter_spec n (Nat.sqrt n) hr hn hr0 (Double.bitLen n + 1) _ hx0 hfuel]
    exact ⟨hr, hn⟩

/-- A power of two below `2 * n + 1` is at most `2 * n`, for `n` other than zero. -/
theorem Double.bitLen_le_double (n : Nat) (hn : 0 < n) :
    n < 2 ^ Double.bitLen n ∧ 2 ^ Double.bitLen n ≤ 2 * n := by
  obtain ⟨h1, h2⟩ := Double.bitLen_spec n
  refine ⟨h1, ?_⟩
  have hb : Double.bitLen n ≠ 0 := by
    intro hb
    rw [hb] at h1
    simp at h1
    omega
  obtain ⟨j, hj⟩ := Nat.exists_eq_succ_of_ne_zero hb
  rw [hj, pow_succ] at h2 ⊢
  omega

/-- A significand between `2 ^ 52` and `2 ^ 53` is packed into the normal double of
that significand: its magnitude is `m * 2 ^ qb`. -/
theorem Double.pack_spec (m qb : Nat) (hlo : 4503599627370496 ≤ m)
    (hhi : m ≤ 9007199254740992) (hq : qb ≤ 2044) :
    ∃ e f, Double.pack false m qb = .fin false e f ∧ Double.mag e f = m * 2 ^ qb ∧
      qb ≤ e.val - 1 ∧ 1 ≤ e.val := by
  unfold Double.pack
  rw [dif_neg (by omega)]
  by_cases h53 : m < 9007199254740992
  · simp only [h53, if_true]
    rw [dif_pos (show qb + 1 < 2047 by omega),
      dif_pos (show m - 4503599627370496 < 4503599627370496 by omega)]
    refine ⟨_, _, rfl, ?_, ?_, ?_⟩
    · have h1 : 4503599627370496 + (m - 4503599627370496) = m := by omega
      have h2 : qb + 1 - 1 = qb := by omega
      simp only [Double.mag, Double.mant, Nat.shiftLeft_eq, Fin.val_mk]
      rw [if_neg (by omega), h1, h2]
    · simp
    · simp
  · have hm : m = 9007199254740992 := by omega
    simp only [h53, if_false]
    rw [dif_pos (show qb + 2 < 2047 by omega),
      dif_pos (show 0 < 4503599627370496 by decide)]
    refine ⟨_, _, rfl, ?_, ?_, ?_⟩
    · have h2 : qb + 2 - 1 = qb + 1 := by omega
      simp only [Double.mag, Double.mant, Nat.shiftLeft_eq, Fin.val_mk]
      rw [if_neg (by omega), hm, h2, pow_succ]
      generalize 2 ^ qb = q
      omega
    · simp
    · simp

/-- In the normal range `2 ^ (-1022) ≤ num / den < 2 ^ 1023` the function `roundRat`
returns a normal double whose magnitude is `m * 2 ^ qb` with `2 ^ 52 ≤ m ≤ 2 ^ 53` and
lies within `2 ^ qb / 2` of `num / den` (in units of `2 ^ (-1074)`). -/
theorem Double.roundRat_normal (num den : Nat) (hd : 0 < den)
    (hlo : den ≤ num * 2 ^ 1022) (hhi : num < den * 2 ^ 1023) :
    ∃ e f qb, Double.roundRat false num den = .fin false e f ∧
      qb ≤ e.val - 1 ∧ 1 ≤ e.val ∧
      4503599627370496 * 2 ^ qb ≤ Double.mag e f ∧
      Double.mag e f ≤ 9007199254740992 * 2 ^ qb ∧
      2 * (Double.mag e f * den) ≤ 2 * (num * 2 ^ 1074) + den * 2 ^ qb ∧
      2 * (num * 2 ^ 1074) ≤ 2 * (Double.mag e f * den) + den * 2 ^ qb := by
  have hnum : 0 < num := by
    rcases Nat.eq_zero_or_pos num with h | h
    · rw [h] at hlo; omega
    · exact h
  obtain ⟨hA1, hA2⟩ := Double.bitLen_le_double num hnum
  obtain ⟨hB1, hB2⟩ := Double.bitLen_le_double den hd
  have e1022 : (2:Nat) ^ 1022 = 2 * 2 ^ 1021 := by rw [← pow_succ']
  have e1023 : (2:Nat) ^ 1023 = 4 * 2 ^ 1021 := by
    rw [show (4:Nat) = 2 ^ 2 from rfl, ← pow_add]
  have e1074 : (2:Nat) ^ 1074 = 9007199254740992 * 2 ^ 1021 := by
    rw [show (9007199254740992:Nat) = 2 ^ 53 from rfl, ← pow_add]
  have ht : 0 < (2:Nat) ^ 1021 := by positivity
  rw [e1022] at hlo
  rw [e1023] at hhi
  -- the exponent of the unit in the last place
  have key : ∃ qb, (Double.bitLen num + 1022 -
        (if den <<< Double.bitLen num ≤ num <<< Double.bitLen den then 0 else 1)) -
        Double.bitLen den = qb ∧ qb ≤ 2044 ∧
      den * 2 ^ qb ≤ num * (2 * 2 ^ 1021) ∧ num * (2 * 2 ^ 1021) < 2 * (den * 2 ^ qb) := by
    simp only [Nat.shiftLeft_eq]
    generalize hbn : Double.bitLen num = bn at hA1 hA2
    generalize hbd : Double.bitLen den = bd at hB1 hB2
    by_cases hc : den * 2 ^ bn ≤ num * 2 ^ bd
    · rw [if_pos hc]
      -- `bd ≤ bn + 1022`
      have h1 : bd ≤ bn + 1022 := by
        by_contra hcon
        push_neg at hcon
        have : 2 ^ (bn + 1023) ≤ 2 ^ bd := Nat.pow_le_pow_right (by decide) hcon
        rw [pow_add, e1023] at this
        have h2 : 2 ^ bn * (2 * 2 ^ 1021) ≤ den := by
          have : 2 * (2 ^ bn * (2 * 2 ^ 1021)) ≤ 2 * den := by
            calc 2 * (2 ^ bn * (2 * 2 ^ 1021)) = 2 ^ bn * (4 * 2 ^ 1021) := by ring
              _ ≤ 2 ^ bd := this
              _ ≤ 2 * den := hB2
          omega
        have h3 : num * (2 * 2 ^ 1021) < 2 ^ bn * (2 * 2 ^ 1021) :=
          Nat.mul_lt_mul_of_pos_right hA1 (by positivity)
        omega
      have hq : bn + 1022 - 0 - bd + bd = bn + 1022 := by omega
      have hQ : 2 ^ (bn + 1022 - 0 - bd) * 2 ^ bd = 2 ^ bn * (2 * 2 ^ 1021) := by
        rw [← pow_add, hq, pow_add, e1022]
      have h2 : bn ≤ bd + 1022 := by
        by_contra hcon
        push_neg at hcon
        have : 2 ^ (bd + 1023) ≤ 2 ^ bn := Nat.pow_le_pow_right (by decide) hcon
        rw [pow_add, e1023] at this
        have h3 : den * (2 ^ bd * (4 * 2 ^ 1021)) ≤ num * 2 ^ bd :=
          le_trans (Nat.mul_le_mul_left den this) hc
        have h4 : num * 2 ^ bd < den * (4 * 2 ^ 1021) * 2 ^ bd :=
          Nat.mul_lt_mul_of_pos_right hhi (by positivity)
        have h5 : den * (2 ^ bd * (4 * 2 ^ 1021)) = den * (4 * 2 ^ 1021) * 2 ^ bd := by ring
        omega
      refine ⟨_, rfl, by omega, ?_, ?_⟩
      · apply Nat.le_of_mul_le_mul_right _ (show 0 < 2 ^ bd by positivity)
        calc den * 2 ^ (bn + 1022 - 0 - bd) * 2 ^ bd
            = den * (2 ^ (bn + 1022 - 0 - bd) * 2 ^ bd) := by ring
          _ = den * 2 ^ bn * (2 * 2 ^ 1021) := by rw [hQ]; ring
          _ ≤ num * 2 ^ bd * (2 * 2 ^ 1021) := Nat.mul_le_mul_right _ hc
          _ = num * (2 * 2 ^ 1021) * 2 ^ bd := by ring
      · apply Nat.lt_of_mul_lt_mul_right (a := 2 ^ bd)
        calc num * (2 * 2 ^ 1021) * 2 ^ bd = num * 2 ^ bd * (2 * 2 ^ 1021) := by ring
          _ < 2 ^ bn * (2 * den) * (2 * 2 ^ 1021) := by
            apply Nat.mul_lt_mul_of_pos_right _ (by positivity)
            calc num * 2 ^ bd < 2 ^ bn * 2 ^ bd :=
                  Nat.mul_lt_mul_of_pos_right hA1 (by positivity)
              _ ≤ 2 ^ bn * (2 * den) := Nat.mul_le_mul_left _ hB2
          _ = 2 * (den * (2 ^ bn * (2 * 2 ^ 1021))) := by ring
          _ = 2 * (den * (2 ^ (bn + 1022 - 0 - bd) * 2 ^ bd)) := by rw [hQ]
          _ = 2 * (den * 2 ^ (bn + 1022 - 0 - bd)) * 2 ^ bd := by ring
    · rw [if_neg hc]
      push_neg at hc
      have h1 : bd ≤ bn + 1021 := by
        by_contra hcon
        push_neg at hcon
        have : 2 ^ (bn + 1022) ≤ 2 ^ bd := Nat.pow_le_pow_right (by decide) hcon
        rw [pow_add, e1022] at this
        have h3 : den * 2 ^ bn ≤ num * (2 * 2 ^ 1021) * 2 ^ bn :=
          Nat.mul_le_mul_right _ hlo
        have h4 : num * (2 ^ bn * (2 * 2 ^ 1021)) ≤ num * 2 ^ bd :=
          Nat.mul_le_mul_left num this
        have h5 : num * (2 * 2 ^ 1021) * 2 ^ bn = num * (2 ^ bn * (2 * 2 ^ 1021)) := by ring
        omega
      have hq : bn + 1022 - 1 - bd + bd = bn + 1021 := by omega
      have hQ : 2 ^ (bn + 1022 - 1 - bd) * 2 ^ bd = 2 ^ bn * 2 ^ 1021 := by
        rw [← pow_add, hq, pow_add]
      have h2 : bn ≤ bd + 1023 := by
        by_contra hcon
        push_neg at hcon
        have : 2 ^ (bd + 1024) ≤ 2 ^ bn := Nat.pow_le_pow_right (by decide) hcon
        rw [show bd + 1024 = bd + 1023 + 1 from rfl, pow_succ, pow_add, e1023] at this
        have h3 : den * (4 * 2 ^ 1021) < 2 ^ bd * (4 * 2 ^ 1021) :=
          Nat.mul_lt_mul_of_pos_right hB1 (by positivity)
        omega
      refine ⟨_, rfl, by omega, ?_, ?_⟩
      · apply Nat.le_of_mul_le_mul_right _ (show 0 < 2 ^ bd by positivity)
        calc den * 2 ^ (bn + 1022 - 1 - bd) * 2 ^ bd
            = den * (2 ^ (bn + 1022 - 1 - bd) * 2 ^ bd) := by ring
          _ = den * 2 ^ bn * 2 ^ 1021 := by rw [hQ]; ring
          _ ≤ 2 ^ bd * (2 * num) * 2 ^ 1021 := by
            apply Nat.mul_le_mul_right
            exact Nat.mul_le_mul hB1.le hA2
          _ = num * (2 * 2 ^ 1021) * 2 ^ bd := by ring
      · apply Nat.lt_of_mul_lt_mul_right (a := 2 ^ bd)
        calc num * (2 * 2 ^ 1021) * 2 ^ bd = 2 * (num * 2 ^ bd) * 2 ^ 1021 := by ring
          _ < 2 * (den * 2 ^ bn) * 2 ^ 1021 := by
            apply Nat.mul_lt_mul_of_pos_right _ ht
            omega
          _ = 2 * (den * (2 ^ bn * 2 ^ 1021)) := by ring
          _ = 2 * (den * (2 ^ (bn + 1022 - 1 - bd) * 2 ^ bd)) := by rw [hQ]
          _ = 2 * (den * 2 ^ (bn + 1022 - 1 - bd)) * 2 ^ bd := by ring
  obtain ⟨qb, hqb, hq2044, hK1, hK2⟩ := key
  have hdq : 0 < den * 2 ^ qb := by positivity
  obtain ⟨hR1, hR2⟩ := Double.roundHalfEven_spec (num * 2 ^ 1074) (den * 2 ^ qb) hdq
  have hm1 : 4503599627370496 ≤ Double.roundHalfEven (num * 2 ^ 1074) (den * 2 ^ qb) := by
    by_contra hcon
    push_neg at hcon
    have h1 : Double.roundHalfEven (num * 2 ^ 1074) (den * 2 ^ qb) * (den * 2 ^ qb) ≤
        4503599627370495 * (den * 2 ^ qb) := Nat.mul_le_mul_right _ (by omega)
    have h2 : num * 2 ^ 1074 = 4503599627370496 * (num * (2 * 2 ^ 1021)) := by
      rw [e1074]; ring
    have h3 := Nat.mul_le_mul_left 4503599627370496 hK1
    omega
  have hm2 : Double.roundHalfEven (num * 2 ^ 1074) (den * 2 ^ qb) ≤ 9007199254740992 := by
    by_contra hcon
    push_neg at hcon
    have h1 : 9007199254740993 * (den * 2 ^ qb) ≤
        Double.roundHalfEven (num * 2 ^ 1074) (den * 2 ^ qb) * (den * 2 ^ qb) :=
      Nat.mul_le_mul_right _ (by omega)
    have h2 : num * 2 ^ 1074 = 4503599627370496 * (num * (2 * 2 ^ 1021)) := by
      rw [e1074]; ring
    have h3 := Nat.mul_lt_mul_of_pos_left hK2 (show 0 < 4503599627370496 by decide)
    omega
  obtain ⟨e, f, hpack, hmag, hqe, he1⟩ := Double.pack_spec _ qb hm1 hm2 hq2044
  refine ⟨e, f, qb, ?_, hqe, he1, ?_, ?_, ?_, ?_⟩
  · unfold Double.roundRat
    rw [if_neg (by omega)]
    simp only [Nat.shiftLeft_eq] at hqb ⊢
    rw [hqb]
    set_option exponentiation.threshold 2000 in
    exact hpack
  · rw [hmag]; exact Nat.mul_le_mul_right _ hm1
  · rw [hmag]; exact Nat.mul_le_mul_right _ hm2
  · rw [hmag, Nat.mul_assoc, Nat.mul_comm (2 ^ qb) den]; exact hR1
  · rw [hmag, Nat.mul_assoc, Nat.mul_comm (2 ^ qb) den]; exact hR2


/-- Powers of two grow with the exponent. -/
theorem Double.two_pow_le (a b : Nat) (h : a ≤ b) : (2:Nat) ^ a ≤ 2 ^ b :=
  Nat.pow_le_pow_right (by decide) h

/-- A power of two is not zero. -/
theorem Double.two_pow_pos (a : Nat) : 0 < (2:Nat) ^ a := by positivity

/-- The magnitude of a finite double is below `2 ^ 2098`, in units of `2 ^ (-1074)`. -/
theorem Double.mag_lt (e : Fin 2047) (f : Fin 4503599627370496) :
    Double.mag e f < 2 ^ 2098 := by
  have hm := Double.mant_lt e f
  have he : e.val - 1 ≤ 2045 := by have := e.isLt; omega
  have h1 := Double.two_pow_le (e.val - 1) 2045 he
  have h2 : (2:Nat) ^ 2098 = 9007199254740992 * 2 ^ 2045 := by
    rw [show (9007199254740992:Nat) = 2 ^ 53 from rfl, ← pow_add]
  rw [Double.mag, Nat.shiftLeft_eq, h2]
  calc Double.mant e f * 2 ^ (e.val - 1) ≤ Double.mant e f * 2 ^ 2045 :=
        Nat.mul_le_mul_left _ h1
    _ < 9007199254740992 * 2 ^ 2045 := Nat.mul_lt_mul_of_pos_right hm (by positivity)

/-- The square root of a finite double above zero is a finite double above zero, and
the exact square root lies within half a unit in the last place of it. -/
theorem Double.sqrt_fin_spec (e : Fin 2047) (f : Fin 4503599627370496)
    (hpos : 0 < Double.mag e f) :
    ∃ er fr, Double.sqrt (.fin false e f) = .fin false er fr ∧ 0 < Double.mag er fr ∧
      (2 * Double.mag er fr - Double.ulp er) ^ 2 ≤ 4 * (Double.mag e f * 2 ^ 1074) ∧
      4 * (Double.mag e f * 2 ^ 1074) ≤ (2 * Double.mag er fr + Double.ulp er) ^ 2 := by
  have hX := Double.mag_lt e f
  generalize hXdef : Double.mag e f = X at hpos hX
  obtain ⟨hs1, hs2⟩ := Double.natSqrt_spec (X * 2 ^ 1074)
  generalize hsdef : Double.natSqrt (X * 2 ^ 1074) = s at hs1 hs2
  have e1074 : (2:Nat) ^ 1074 = 2 ^ 537 * 2 ^ 537 := by rw [← pow_add]
  have e1075 : (2:Nat) ^ 1075 = 2 * 2 ^ 1074 := by rw [← pow_succ']
  have e3172 : (2:Nat) ^ 2098 * 2 ^ 1074 = 2 ^ 1586 * 2 ^ 1586 := by
    rw [← pow_add, ← pow_add]
  -- bounds on the integer root
  have hslo : 2 ^ 537 ≤ s := by
    by_contra hcon
    push_neg at hcon
    have h1 : (s + 1) * (s + 1) ≤ 2 ^ 537 * 2 ^ 537 := Nat.mul_le_mul hcon hcon
    have h2 : 1 * 2 ^ 1074 ≤ X * 2 ^ 1074 := Nat.mul_le_mul_right _ hpos
    omega
  have hshi : s < 2 ^ 1586 := by
    by_contra hcon
    push_neg at hcon
    have h1 : 2 ^ 1586 * 2 ^ 1586 ≤ s * s := Nat.mul_le_mul hcon hcon
    have h2 : X * 2 ^ 1074 < 2 ^ 2098 * 2 ^ 1074 :=
      Nat.mul_lt_mul_of_pos_right hX (by positivity)
    omega
  -- the rational that is rounded
  obtain ⟨σ, hσ, hσ01⟩ : ∃ σ, (if s * s = X * 2 ^ 1074 then 0 else 1) = σ ∧
      ((σ = 0 ∧ s * s = X * 2 ^ 1074) ∨ (σ = 1 ∧ s * s < X * 2 ^ 1074)) := by
    by_cases h : s * s = X * 2 ^ 1074
    · exact ⟨0, by rw [if_pos h], Or.inl ⟨rfl, h⟩⟩
    · exact ⟨1, by rw [if_neg h], Or.inr ⟨rfl, by omega⟩⟩
  have hσ1 : σ ≤ 1 := by rcases hσ01 with h | h <;> omega
  have hlo : 2 ^ 1075 ≤ (2 * s + σ) * 2 ^ 1022 := by
    have h1 : (2:Nat) ^ 1075 ≤ 2 ^ 537 * 2 ^ 1022 := by
      rw [← pow_add]
      exact Double.two_pow_le _ _ (by decide)
    have h2 : 2 ^ 537 * 2 ^ 1022 ≤ (2 * s + σ) * 2 ^ 1022 :=
      Nat.mul_le_mul_right _ (by omega)
    omega
  have hhi : 2 * s + σ < 2 ^ 1075 * 2 ^ 1023 := by
    have h1 : (2:Nat) ^ 1586 * 4 ≤ 2 ^ 1075 * 2 ^ 1023 := by
      rw [show (4:Nat) = 2 ^ 2 from rfl, ← pow_add, ← pow_add]
      exact Double.two_pow_le _ _ (by decide)
    omega
  obtain ⟨er, fr, qb, hround, hqe, he1, hm1, hm2, hR1, hR2⟩ :=
    Double.roundRat_normal (2 * s + σ) (2 ^ 1075) (Double.two_pow_pos 1075) hlo hhi
  generalize hRdef : Double.mag er fr = R at hm1 hm2 hR1 hR2
  have hU : 2 ^ qb ≤ Double.ulp er := by
    rw [Double.ulp, Nat.one_shiftLeft]
    exact Nat.pow_le_pow_right (by decide) hqe
  generalize hUdef : Double.ulp er = U at hU
  -- the error of the rounding, in units of `2 ^ (-1074)`
  have hE1 : 2 * R ≤ 2 * s + σ + 2 ^ qb := by
    rw [e1075] at hR1
    have h : (4 * R) * 2 ^ 1074 ≤ (2 * (2 * s + σ) + 2 * 2 ^ qb) * 2 ^ 1074 := by
      calc (4 * R) * 2 ^ 1074 = 2 * (R * (2 * 2 ^ 1074)) := by ring
        _ ≤ 2 * ((2 * s + σ) * 2 ^ 1074) + 2 * 2 ^ 1074 * 2 ^ qb := hR1
        _ = (2 * (2 * s + σ) + 2 * 2 ^ qb) * 2 ^ 1074 := by ring
    have := Nat.le_of_mul_le_mul_right h (by positivity)
    omega
  have hE2 : 2 * s + σ ≤ 2 * R + 2 ^ qb := by
    rw [e1075] at hR2
    have h : (2 * (2 * s + σ)) * 2 ^ 1074 ≤ (4 * R + 2 * 2 ^ qb) * 2 ^ 1074 := by
      calc (2 * (2 * s + σ)) * 2 ^ 1074 = 2 * ((2 * s + σ) * 2 ^ 1074) := by ring
        _ ≤ 2 * (R * (2 * 2 ^ 1074)) + 2 * 2 ^ 1074 * 2 ^ qb := hR2
        _ = (4 * R + 2 * 2 ^ qb) * 2 ^ 1074 := by ring
    have := Nat.le_of_mul_le_mul_right h (by positivity)
    omega
  -- the unit of the rounding is even
  have hqb : qb ≠ 0 := by
    intro h0
    rw [h0] at hm2 hE2
    have h1 : (2:Nat) ^ 55 ≤ 2 ^ 537 := Double.two_pow_le 55 537 (by decide)
    have h2 : (2:Nat) ^ 55 = 36028797018963968 := by norm_num
    omega
  obtain ⟨j, hj⟩ := Nat.exists_eq_succ_of_ne_zero hqb
  rw [hj, pow_succ] at hE1 hE2 hU hm1
  generalize 2 ^ j = v at hE1 hE2 hU hm1
  have hRpos : 0 < R := by omega
  have hA : 2 * R - U ≤ 2 * s := by omega
  have hB : 2 * s + 2 * σ ≤ 2 * R + U := by omega
  refine ⟨er, fr, ?_, by rw [hRdef]; exact hRpos, ?_, ?_⟩
  · rw [← hround]
    simp only [Double.sqrt, hXdef, Nat.shiftLeft_eq, Nat.one_mul, hsdef, hσ]
    set_option exponentiation.threshold 2000 in
    rw [if_neg (by omega), if_neg (by decide)]
  · rw [hRdef, hUdef]
    calc (2 * R - U) ^ 2 ≤ (2 * s) ^ 2 := Nat.pow_le_pow_left hA 2
      _ = 4 * (s * s) := by ring
      _ ≤ 4 * (X * 2 ^ 1074) := by omega
  · rw [hRdef, hUdef]
    rcases hσ01 with ⟨h0, hs⟩ | ⟨h1, hs⟩
    · calc 4 * (X * 2 ^ 1074) = (2 * s) ^ 2 := by rw [← hs]; ring
        _ ≤ (2 * R + U) ^ 2 := Nat.pow_le_pow_left (by omega) 2
    · have h4 : 4 * (X * 2 ^ 1074) ≤ 4 * ((s + 1) * (s + 1)) := by omega
      calc 4 * (X * 2 ^ 1074) ≤ 4 * ((s + 1) * (s + 1)) := h4
        _ = (2 * s + 2) ^ 2 := by ring
        _ ≤ (2 * R + U) ^ 2 := Nat.pow_le_pow_left (by omega) 2

/-! ## Square root and power -/

/-- The square root of a double that is `>= 0`: its sign and its accuracy. -/
theorem Double.sqrt_spec (x : Double) (hx : x ≥ 0) :
    ¬ x < 0 ∧ Double.sqrt x ≥ 0 ∧ (x > 0 → Double.sqrt x > 0) ∧
      Double.IsSqrtUpToRounding (Double.sqrt x) x := by
  have hnlt := Double.not_lt_of_le x 0 hx
  refine ⟨hnlt, ?_⟩
  have h0 : (0 : Double) = .fin false 0 0 := by decide
  have hm0 : Double.mag 0 0 = 0 := by decide
  change Double.le 0 x = true at hx
  change Double.le 0 (Double.sqrt x) = true ∧
    (Double.lt 0 x = true → Double.lt 0 (Double.sqrt x) = true) ∧ _
  rw [h0] at hx ⊢
  match x, hx with
  | .inf false, _ => simp [Double.sqrt, Double.le, Double.lt, Double.IsSqrtUpToRounding]
  | .inf true, hx => simp [Double.le] at hx
  | .fin n e f, hx =>
    simp only [Double.le, Double.sval, hm0, decide_eq_true_eq, Bool.false_eq_true,
      if_false] at hx
    by_cases hmag : Double.mag e f = 0
    · have hs : Double.sqrt (.fin n e f) = .fin n e f := by simp [Double.sqrt, hmag]
      rw [hs]
      simp [Double.le, Double.lt, Double.sval, hm0, hmag, Double.IsSqrtUpToRounding]
    · have hpos : 0 < Double.mag e f := Nat.pos_of_ne_zero hmag
      have hn : n = false := by
        cases n with
        | false => rfl
        | true => simp at hx; omega
      subst hn
      obtain ⟨er, fr, hs, hrpos, hr1, hr2⟩ := Double.sqrt_fin_spec e f hpos
      rw [hs]
      refine ⟨?_, ?_, ?_⟩
      · simp [Double.le, Double.sval, hm0]
      · intro _
        simp only [Double.lt, Double.sval, hm0, decide_eq_true_eq, Bool.false_eq_true,
          if_false]
        exact_mod_cast hrpos
      · simp only [Double.IsSqrtUpToRounding, hmag, if_false]
        exact ⟨trivial, trivial, hr1, hr2⟩

/-- C15, the claim as amended: for every number that satisfies the precondition of
`sqrt` (it is `>= 0`) the call returns a result that is `>= 0`, and a result strictly
greater than `0` when the number is strictly greater than `0`. -/
theorem sqrt_result_sign (s : Calculator) (x : Double) (hx : x ≥ 0) :
    ∃ r, (s.sqrt x).1 = .ok r ∧ r ≥ 0 ∧ (x > 0 → r > 0) := by
  obtain ⟨hnlt, h1, h2, _⟩ := Double.sqrt_spec x hx
  exact ⟨Double.sqrt x, by simp [Calculator.sqrt, hnlt], h1, h2⟩

/-- The call `sqrt(64.0)` of the driver, on a new calculator, returns `8.0`, which is
greater than `0`. -/
theorem sqrt_result_sign_witness :
    (Calculator.Calculator.sqrt 64.0).1 = .ok 8.0 ∧ (8.0 : Double) > 0 := by
  obtain ⟨r, hr, _, hpos⟩ := sqrt_result_sign Calculator.Calculator 64.0 (by decide)
  have h8 : r = 8.0 :=
    Except.ok.inj (hr.symm.trans (show (Calculator.Calculator.sqrt 64.0).1 = .ok 8.0 by decide))
  rw [h8] at hr hpos
  exact ⟨hr, hpos (by decide)⟩

/-- C15, the claim as stated fails: `0.0` satisfies the precondition of `sqrt`, and
`sqrt(0.0)` returns `0.0`, which is not strictly greater than `0`. -/
theorem sqrt_zero_not_positive :
    (0.0 : Double) ≥ 0 ∧ (Calculator.Calculator.sqrt 0.0).1 = .ok 0.0 ∧
      ¬ ((0.0 : Double) > 0) := by
  decide

/-- C14: for every `x >= 0` the call `sqrt(x)` returns a value `r` with `r >= 0` whose
square is `x` up to the rounding of the square root: the exact root of `x` lies within
half a unit in the last place of `r`. The call `sqrt(64.0)` returns `8.0`, and
`power(2.0, 8.0)` returns `256.0` with the power function of the specification. -/
theorem sqrt_and_power_values (prim : Double → Double → Double) (s : Calculator)
    (x : Double) (hx : x ≥ 0) :
    (∃ r, (s.sqrt x).1 = .ok r ∧ r ≥ 0 ∧ Double.IsSqrtUpToRounding r x) ∧
    (s.sqrt 64.0).1 = .ok 8.0 ∧
    (s.power (Double.pow prim) 2.0 8.0).1 = .ok 256.0 := by
  obtain ⟨hnlt, h1, _, h3⟩ := Double.sqrt_spec x hx
  refine ⟨⟨Double.sqrt x, by simp [Calculator.sqrt, hnlt], h1, h3⟩, ?_, ?_⟩
  · have h64 : ¬ ((64.0 : Double) < 0) := by decide
    have h8 : Double.sqrt 64.0 = 8.0 := by decide
    simp [Calculator.sqrt, h64, h8]
  · have hp : Double.pow prim 2.0 8.0 = 256.0 := by rfl
    simp [Calculator.power, hp]

/-- The call `sqrt(2.0)` on a new calculator: the result is `>= 0`, and the exact root
of `2` lies within half a unit in the last place of it. -/
theorem sqrt_and_power_values_witness :
    (Calculator.Calculator.sqrt 2.0).1 = .ok (.fin false 1023 0x6A09E667F3BCD) ∧
      (.fin false 1023 0x6A09E667F3BCD : Double) ≥ 0 ∧
      Double.IsSqrtUpToRounding (.fin false 1023 0x6A09E667F3BCD) 2.0 := by
  obtain ⟨⟨r, hr, h0, hsq⟩, _⟩ :=
    sqrt_and_power_values (fun a _ => a) Calculator.Calculator 2.0 (by decide)
  have h2 : r = .fin false 1023 0x6A09E667F3BCD :=
    Except.ok.inj (hr.symm.trans
      (show (Calculator.Calculator.sqrt 2.0).1 = .ok (.fin false 1023 0x6A09E667F3BCD)
        by decide))
  rw [h2] at hr h0 hsq
  exact ⟨hr, h0, hsq⟩

/-! ## The text of a number -/

end MathUtils
